import Mathlib

/-!
# Employee record management system: dashboard scripts

A shallow embedding of the two browser scripts of the repository,
`employees/js/admin_dashboard.js` (live search, row rendering, chart
initialiser) and `employees/js/theme.9f474ab98c3e.js` (theme controller),
followed by theorems about them.

JavaScript strings are lists of characters.  The DOM, the timer queue, the
browser storage and the charting library are explicit state.
-/

namespace Erms

/-! ## Strings and JSON values -/

/-- A JavaScript string. -/
abbrev JsString := List Char

/-- The apostrophe character (code point 39). -/
def apostrophe : Char := Char.ofNat 39

/-- A field of a JSON object as the renderer sees it: missing, `null`, a
string, or any other JSON value (a number, a boolean, an array, an object),
of which only the truthiness and the string conversion matter here. -/
inductive JsVal where
  | undefined
  | null
  | str (s : JsString)
  | other (truthy : Bool) (text : JsString)
  deriving DecidableEq, Repr

/-- JavaScript truthiness: `undefined`, `null` and `''` are falsy, and so
are `0` and `false` among the other values. -/
def JsVal.truthy : JsVal → Bool
  | .str (_ :: _) => true
  | .other t _ => t
  | _ => false

/-- The expression `a || b`. -/
def JsVal.orElse (a b : JsVal) : JsVal :=
  if a.truthy then a else b

/-- String conversion performed by a template literal `${v}`. -/
def JsVal.toStr : JsVal → JsString
  | .undefined => "undefined".toList
  | .null => "null".toList
  | .str s => s
  | .other _ text => text

/-- One pass `s.replace(/c/g, r)`: every occurrence of the character `c`
is replaced by `r` (no replacement string of the program contains `$`). -/
def replaceAll (c : Char) (r : JsString) (s : JsString) : JsString :=
  s.flatMap (fun x => if x = c then r else [x])

/-- The five chained passes of `escapeHtml` on a string receiver. -/
def escapeHtmlStr (value : JsString) : JsString :=
  replaceAll apostrophe "&#39;".toList
    (replaceAll '"' "&quot;".toList
      (replaceAll '>' "&gt;".toList
        (replaceAll '<' "&lt;".toList
          (replaceAll '&' "&amp;".toList value))))

/-- The function `escapeHtml(value)`: `value.replace` exists only on strings;
on `undefined`, `null`, a number, a boolean, an array or an object the call
raises a `TypeError` (`none`). -/
def escapeHtml : JsVal → Option JsString
  | .str s => some (escapeHtmlStr s)
  | _ => none

/-! ## The search table -/

/-- One entry of `data.results`. -/
structure Employee where
  employee_id : JsVal
  name : JsVal
  role : JsVal
  department : JsVal
  status : JsVal
  hire_date : JsVal
  detail_url : JsVal
  edit_url : JsVal
  delete_url : JsVal
  deriving DecidableEq, Repr

/-- The literal pieces of the row template, in order. -/
def rowLit0 : JsString := "\n        <tr>\n          <td>".toList
def rowLit1 : JsString := "</td>\n          <td>".toList
def rowLit2 : JsString := "</td>\n          <td>".toList
def rowLit3 : JsString := "</td>\n          <td>".toList
def rowLit4 : JsString := "</td>\n          <td><span class=\"badge\">".toList
def rowLit5 : JsString := "</span></td>\n          <td>".toList
def rowLit6 : JsString :=
  "</td>\n          <td class=\"row-actions\">\n            <a href=\"".toList
def rowLit7 : JsString := "\">View</a>\n            <a href=\"".toList
def rowLit8 : JsString := "\">Edit</a>\n            <a class=\"danger\" href=\"".toList
def rowLit9 : JsString := "\">Delete</a>\n          </td>\n        </tr>\n      ".toList

/-- The arrow function mapped over the results in `renderRows`: the markup of
one row, or `none` when an `escapeHtml` call throws. -/
def rowHtml (employee : Employee) : Option JsString := do
  let c1 ← escapeHtml employee.employee_id
  let c2 ← escapeHtml employee.name
  let c3 ← escapeHtml (employee.role.orElse (.str []))
  let c4 ← escapeHtml (employee.department.orElse (.str []))
  let c5 ← escapeHtml (employee.status.orElse (.str []))
  let c6 ← escapeHtml (employee.hire_date.orElse (.str []))
  pure (rowLit0 ++ c1 ++ rowLit1 ++ c2 ++ rowLit2 ++ c3 ++ rowLit3 ++ c4
    ++ rowLit4 ++ c5 ++ rowLit5 ++ c6 ++ rowLit6 ++ employee.detail_url.toStr
    ++ rowLit7 ++ employee.edit_url.toStr ++ rowLit8 ++ employee.delete_url.toStr
    ++ rowLit9)

/-- The markup written for an empty result list. -/
def noResultsRow : JsString :=
  "<tr class=\"no-results\"><td colspan=\"7\">No employees found.</td></tr>".toList

/-- The elements the search controller touches.  `none` is an absent element;
otherwise the field holds the `innerHTML` of the table body, the
`textContent` of the status line, and the `data-loading` attribute of the
table. -/
structure SearchDom where
  tableBody : Option JsString
  statusElement : Option JsString
  table : Option (Option JsString)
  deriving DecidableEq, Repr

/-- The function `setStatus(message)`. -/
def setStatus (message : JsString) (dom : SearchDom) : SearchDom :=
  match dom.statusElement with
  | none => dom
  | some _ => { dom with statusElement := some message }

/-- `xs.map(f)` for a callback that may throw: the first exception aborts
the whole mapping. -/
def mapThrowing {α β : Type} (f : α → Option β) : List α → Option (List β)
  | [] => some []
  | x :: xs =>
    match f x with
    | none => none
    | some y =>
      match mapThrowing f xs with
      | none => none
      | some ys => some (y :: ys)

/-- The function `renderRows(results)`; `none` when the mapping throws, in
which case nothing has been assigned. -/
def renderRows (results : List Employee) (dom : SearchDom) : Option SearchDom :=
  match dom.tableBody with
  | none => some dom
  | some _ =>
    if results.length = 0 then
      some { dom with tableBody := some noResultsRow }
    else do
      let rows ← mapThrowing rowHtml results
      pure { dom with tableBody := some rows.flatten }

/-! ### Reading markup

The table body is set through `innerHTML`, so its rows are those the HTML
tokenizer finds in the markup.  The tag part of that tokenizer is modelled
here, state by state after the HTML standard; comments, doctypes, character
references and raw-text elements are not (a `<!` or `<?` is skipped up to the
next `>`). -/

/-- States of the HTML tokenizer that matter for tags. -/
inductive TokMode where
  | data
  | tagOpen
  | endTagOpen
  | tagName
  | beforeAttrName
  | attrName
  | afterAttrName
  | beforeAttrValue
  | attrValueDq
  | attrValueSq
  | attrValueUnq
  | afterAttrValueQuoted
  | selfClosingStart
  | bogusComment
  deriving DecidableEq, Repr

/-- The tokenizer between two characters: its state, and for a tag being
read its lower-cased name and whether it is an end tag. -/
structure Tok where
  mode : TokMode
  name : JsString
  closing : Bool
  deriving DecidableEq, Repr

/-- The tokenizer outside any tag. -/
def Tok.data : Tok := { mode := .data, name := [], closing := false }

/-- White space between attributes: tab, line feed, form feed, carriage
return, space. -/
def isHtmlSpace (c : Char) : Bool :=
  c.toNat = 9 || c.toNat = 10 || c.toNat = 12 || c.toNat = 13 || c.toNat = 32

/-- The after-attribute-name state. -/
def afterAttrNameStep (t : Tok) (c : Char) : Tok :=
  if isHtmlSpace c then { t with mode := .afterAttrName }
  else if c = '/' then { t with mode := .selfClosingStart }
  else if c = '=' then { t with mode := .beforeAttrValue }
  else if c = '>' then Tok.data
  else { t with mode := .attrName }

/-- The before-attribute-name state. -/
def beforeAttrNameStep (t : Tok) (c : Char) : Tok :=
  if isHtmlSpace c then { t with mode := .beforeAttrName }
  else if c = '/' || c = '>' then afterAttrNameStep t c
  else { t with mode := .attrName }

/-- One character read by the tokenizer. -/
def tokStep (t : Tok) (c : Char) : Tok :=
  match t.mode with
  | .data => if c = '<' then { mode := .tagOpen, name := [], closing := false } else t
  | .tagOpen =>
    if c = '/' then { mode := .endTagOpen, name := [], closing := true }
    else if c.isAlpha then { mode := .tagName, name := [c.toLower], closing := false }
    else if c = '!' || c = '?' then { mode := .bogusComment, name := [], closing := false }
    else if c = '<' then { mode := .tagOpen, name := [], closing := false }
    else Tok.data
  | .endTagOpen =>
    if c.isAlpha then { mode := .tagName, name := [c.toLower], closing := true }
    else if c = '>' then Tok.data
    else { mode := .bogusComment, name := [], closing := false }
  | .tagName =>
    if isHtmlSpace c then { t with mode := .beforeAttrName }
    else if c = '/' then { t with mode := .selfClosingStart }
    else if c = '>' then Tok.data
    else { t with name := t.name ++ [c.toLower] }
  | .beforeAttrName => beforeAttrNameStep t c
  | .attrName =>
    if isHtmlSpace c || c = '/' || c = '>' then afterAttrNameStep t c
    else if c = '=' then { t with mode := .beforeAttrValue }
    else t
  | .afterAttrName => afterAttrNameStep t c
  | .beforeAttrValue =>
    if isHtmlSpace c then t
    else if c = '"' then { t with mode := .attrValueDq }
    else if c = apostrophe then { t with mode := .attrValueSq }
    else if c = '>' then Tok.data
    else { t with mode := .attrValueUnq }
  | .attrValueDq => if c = '"' then { t with mode := .afterAttrValueQuoted } else t
  | .attrValueSq => if c = apostrophe then { t with mode := .afterAttrValueQuoted } else t
  | .attrValueUnq =>
    if isHtmlSpace c then { t with mode := .beforeAttrName }
    else if c = '>' then Tok.data
    else t
  | .afterAttrValueQuoted =>
    if isHtmlSpace c then { t with mode := .beforeAttrName }
    else if c = '/' then { t with mode := .selfClosingStart }
    else if c = '>' then Tok.data
    else beforeAttrNameStep t c
  | .selfClosingStart => if c = '>' then Tok.data else beforeAttrNameStep t c
  | .bogusComment => if c = '>' then Tok.data else t

/-- Reading `c` completes a `<tr ...>` start tag. -/
def opensRow (t : Tok) (c : Char) : Bool :=
  c = '>' && !t.closing && t.name = "tr".toList &&
    (t.mode = .tagName || t.mode = .beforeAttrName || t.mode = .attrName
      || t.mode = .afterAttrName || t.mode = .beforeAttrValue || t.mode = .attrValueUnq
      || t.mode = .afterAttrValueQuoted || t.mode = .selfClosingStart)

/-- The tokenizer after reading a piece of markup. -/
def tokAfter (t : Tok) (markup : JsString) : Tok :=
  markup.foldl tokStep t

/-- Number of `<tr>` start tags the tokenizer reads in a piece of markup. -/
def countRows : Tok → JsString → Nat
  | _, [] => 0
  | t, c :: cs => (if opensRow t c then 1 else 0) + countRows (tokStep t c) cs

/-- The tokenizer inside the double-quoted `href` value of an `<a>` tag. -/
def inHref : Tok := { mode := .attrValueDq, name := "a".toList, closing := false }

/-- Reading `markup` from state `t` ends in state `t2` after `n` row tags. -/
def Reads (t : Tok) (markup : JsString) (t2 : Tok) (n : Nat) : Prop :=
  tokAfter t markup = t2 ∧ countRows t markup = n

/-- The string passed to `escapeHtml` by `v || ''`. -/
def cellValue (v : JsVal) : JsString := (v.orElse (.str [])).toStr

/-- The value is a string. -/
def JsVal.isStr : JsVal → Bool
  | .str _ => true
  | _ => false

/-- All nine fields of the result are strings. -/
def Employee.stringFields (e : Employee) : Bool :=
  e.employee_id.isStr && e.name.isStr && e.role.isStr && e.department.isStr
    && e.status.isStr && e.hire_date.isStr && e.detail_url.isStr && e.edit_url.isStr
    && e.delete_url.isStr

/-- A link target that closes its attribute and opens a second table row. -/
def injectedUrl : JsString :=
  "#\">View</a></td></tr><tr><td colspan=\"7\"><a href=\"#".toList

/-- A result whose nine fields are strings, with `injectedUrl` as detail link. -/
def injectedEmployee : Employee :=
  { employee_id := .str "7".toList, name := .str "Ann".toList, role := .str "Dev".toList,
    department := .str "IT".toList, status := .str "Active".toList,
    hire_date := .str "2020-01-01".toList, detail_url := .str injectedUrl,
    edit_url := .str "/employees/7/edit/".toList,
    delete_url := .str "/employees/7/delete/".toList }

/-- A result with nine string fields and ordinary links. -/
def plainEmployee : Employee :=
  { employee_id := .str "9".toList, name := .str "Bob <b>".toList, role := .str [],
    department := .str "HR".toList, status := .str "Active".toList,
    hire_date := .str "2019-03-01".toList, detail_url := .str "/employees/9/?a=1&b=<2>".toList,
    edit_url := .str "/employees/9/edit/".toList,
    delete_url := .str "/employees/9/delete/".toList }

/-- A result whose name and detail link both contain a double quote. -/
def quotedEmployee : Employee :=
  { employee_id := .str "8".toList, name := .str "x\"y".toList, role := .null,
    department := .undefined, status := .str [], hire_date := .str "2021-05-01".toList,
    detail_url := .str "x\"y".toList, edit_url := .str "/employees/8/edit/".toList,
    delete_url := .str "/employees/8/delete/".toList }

/-- The replacement `escapeHtml` is documented to perform on one character. -/
def escapeChar (c : Char) : JsString :=
  if c = '&' then "&amp;".toList
  else if c = '<' then "&lt;".toList
  else if c = '>' then "&gt;".toList
  else if c = '"' then "&quot;".toList
  else if c = apostrophe then "&#39;".toList
  else [c]

/-- The five entities `escapeHtml` produces. -/
def entities : List JsString :=
  ["&amp;".toList, "&lt;".toList, "&gt;".toList, "&quot;".toList, "&#39;".toList]

/-- Every `&` of the text starts one of the five entities. -/
def ampsBeginEntities : JsString → Bool
  | [] => true
  | c :: cs => (c != '&' || entities.any (fun e => e.isPrefixOf (c :: cs)))
      && ampsBeginEntities cs


/-! ## The search controller -/

/-- The request address `new URL(endpoint, origin)` after the optional
`url.searchParams.set('q', query)`. -/
structure SearchUrl where
  endpoint : JsString
  q : Option JsString
  deriving DecidableEq, Repr

/-- Calls the controller makes on the platform, in program order.  Abort
controllers are numbered in creation order. -/
inductive Effect where
  | abort (controller : Nat)
  | newController (controller : Nat)
  | fetch (controller : Nat) (url : SearchUrl)
  deriving DecidableEq, Repr

/-- A timer registered by `window.setTimeout`: its id, the instant it is due
and the query captured by its callback. -/
structure Timer where
  id : Nat
  due : Nat
  query : JsString
  deriving DecidableEq, Repr

/-- The closure of `admin_dashboard.js` together with the part of the page
and of the platform it acts on.  `endpointParses` tells whether
`new URL(endpoint, window.location.origin)` returns (`true`) or throws a
`TypeError` (`false`); both arguments are fixed for the page.  `calls` records
the queries with which the debounce callback has invoked `performSearch`. -/
structure SearchState where
  dom : SearchDom
  searchContainer : Bool
  searchInput : Option JsString
  endpoint : Option JsString
  endpointParses : Bool
  debounceTimer : Option Nat
  activeController : Option Nat
  listening : Bool
  nextController : Nat
  nextTimer : Nat
  pending : List Timer
  now : Nat
  trace : List Effect
  calls : List JsString
  deriving DecidableEq, Repr

/-- Truthiness of a value that is `undefined` or a string. -/
def truthyStr : Option JsString → Bool
  | some (_ :: _) => true
  | _ => false

/-- The status shown while a request runs. -/
def searchingMessage : JsString := "Searching…".toList

/-- The status shown when a request fails. -/
def failureMessage : JsString := "Unable to fetch employees. Please try again.".toList

/-- The name of the error a cancelled fetch rejects with. -/
def abortErrorName : JsString := "AbortError".toList

/-- The function `performSearch(query)` up to and including the call of
`fetch`; the rest of the function runs when the request settles.  When
`new URL(endpoint, window.location.origin)` throws, which is before the `try`,
the function ends there, after the controllers have been swapped: its promise
is rejected and nothing handles it. -/
def performSearch (query : JsString) (s : SearchState) : SearchState :=
  match s.endpoint with
  | some (e :: es) =>
    let s1 :=
      match s.activeController with
      | some c => { s with trace := s.trace ++ [Effect.abort c] }
      | none => s
    let c := s1.nextController
    let s2 := { s1 with
      activeController := some c
      nextController := c + 1
      trace := s1.trace ++ [Effect.newController c] }
    if s.endpointParses then
      let url : SearchUrl := { endpoint := e :: es, q := if query = [] then none else some query }
      let s3 := { s2 with dom := setStatus searchingMessage s2.dom }
      let s4 := { s3 with
        dom := { s3.dom with table := s3.dom.table.map (fun _ => some "true".toList) } }
      { s4 with trace := s4.trace ++ [Effect.fetch c url] }
    else s2
  | _ => s

/-- What `response.json()` yields: a rejection with an error of the given
name, the value `null`, or an object whose `results` is missing (`none`) or an
array. -/
inductive JsonBody where
  | parseError (name : JsString)
  | nullData
  | object (results : Option (List Employee))
  deriving DecidableEq, Repr

/-- How the awaited `fetch` settles: rejected with an error of the given
name, or resolved with a response. -/
inductive FetchResult where
  | rejected (name : JsString)
  | response (ok : Bool) (status : Nat) (body : JsonBody)
  deriving DecidableEq, Repr

/-- The status text after a successful render. -/
def resultStatus (results : Option (List Employee)) : JsString :=
  match results with
  | some (r :: rs) => (toString (r :: rs).length).toList ++ " result(s)".toList
  | _ => "No employees found".toList

/-- The `try` block of `performSearch` from the first `await` on: the state
it reaches, or the `name` of the error thrown (no assignment precedes a
throw). -/
def tryBlock (r : FetchResult) (s : SearchState) : Except JsString SearchState :=
  match r with
  | .rejected name => .error name
  | .response ok _ body =>
    if !ok then .error "Error".toList
    else
      match body with
      | .parseError name => .error name
      | .nullData => .error "TypeError".toList
      | .object results =>
        match renderRows (results.getD []) s.dom with
        | none => .error "TypeError".toList
        | some dom => .ok { s with dom := setStatus (resultStatus results) dom }

/-- The `catch` block of `performSearch`, entered with the state at the throw. -/
def catchBlock (name : JsString) (s : SearchState) : SearchState :=
  if name = abortErrorName then s
  else { s with dom := setStatus failureMessage s.dom }

/-- The `finally` block: `table?.removeAttribute('data-loading')`. -/
def finallyBlock (s : SearchState) : SearchState :=
  { s with dom := { s.dom with table := s.dom.table.map (fun _ => none) } }

/-- The part of `performSearch` that runs once the request has settled. -/
def settle (r : FetchResult) (s : SearchState) : SearchState :=
  match tryBlock r s with
  | .ok s' => finallyBlock s'
  | .error name => finallyBlock (catchBlock name s)

/-- White space and line terminators removed by `String.prototype.trim`. -/
def isJsWhitespace (c : Char) : Bool :=
  c.toNat ∈ [0x09, 0x0A, 0x0B, 0x0C, 0x0D, 0x20, 0xA0, 0x1680, 0x2028, 0x2029, 0x202F,
    0x205F, 0x3000, 0xFEFF] || (0x2000 ≤ c.toNat && c.toNat ≤ 0x200A)

/-- The method `value.trim()`. -/
def trim (value : JsString) : JsString :=
  ((value.dropWhile isJsWhitespace).reverse.dropWhile isJsWhitespace).reverse

/-- The call `window.clearTimeout(id)`. -/
def clearTimeout (id : Nat) (s : SearchState) : SearchState :=
  { s with pending := s.pending.filter (fun t => t.id != id) }

/-- The function `handleSearchInput()`; timer ids are positive, so a stored
id is truthy unless it is `0`. -/
def handleSearchInput (s : SearchState) : SearchState :=
  let query :=
    match s.searchInput with
    | some value => trim value
    | none => []
  let s1 :=
    match s.debounceTimer with
    | some t => if t = 0 then s else clearTimeout t s
    | none => s
  let t := s1.nextTimer
  { s1 with
    pending := s1.pending ++ [{ id := t, due := s1.now + 120, query := query }]
    nextTimer := t + 1
    debounceTimer := some t }

/-- The function `initSearch()`. -/
def initSearch (s : SearchState) : SearchState :=
  if !s.searchContainer || s.searchInput.isNone || s.dom.tableBody.isNone
      || !truthyStr s.endpoint then s
  else { s with listening := true }

/-- The callback given to `setTimeout`: `() => { performSearch(query); }`. -/
def timerCallback (query : JsString) (s : SearchState) : SearchState :=
  performSearch query { s with calls := s.calls ++ [query] }

/-- Modelled from the spec: the browser's timer queue is not under src/.
Timers fire exactly when due: when the event loop reaches instant `t`, every
pending timer due by then runs its callback, in registration order, before
anything else happens at `t`. -/
def runTimers (t : Nat) (s : SearchState) : SearchState :=
  (s.pending.filter (fun tm => tm.due ≤ t)).foldl (fun acc tm => timerCallback tm.query acc)
    { s with pending := s.pending.filter (fun tm => ¬ tm.due ≤ t), now := max s.now t }

/-- What happens on the page. -/
inductive PageEvent where
  | domContentLoaded
  | input (time : Nat) (value : JsString)
  | settled (r : FetchResult)
  | idle (time : Nat)
  deriving DecidableEq, Repr

/-- One turn of the event loop: the handler of the event runs to its end (or
to its first `await`), after the timers due by then. -/
def step (s : SearchState) : PageEvent → SearchState
  | .domContentLoaded => initSearch s
  | .input t value =>
    let s1 := runTimers t s
    let s2 := { s1 with searchInput := s1.searchInput.map (fun _ => value) }
    if s2.listening then handleSearchInput s2 else s2
  | .settled r => settle r s
  | .idle t => runTimers t s

/-- The page after a sequence of events. -/
def run (events : List PageEvent) (s : SearchState) : SearchState :=
  events.foldl step s

/-- The page as the script finds it when it starts. -/
def initialState (dom : SearchDom) (searchContainer : Bool) (searchInput endpoint : Option JsString)
    (endpointParses : Bool) : SearchState :=
  { dom := dom, searchContainer := searchContainer, searchInput := searchInput,
    endpoint := endpoint, endpointParses := endpointParses, debounceTimer := none, activeController := none, listening := false,
    nextController := 0, nextTimer := 1, pending := [], now := 0, trace := [], calls := [] }

/-- The controllers on which `fetch` has been called, in order. -/
def fetched (trace : List Effect) : List Nat :=
  trace.filterMap (fun e => match e with
    | .fetch c _ => some c
    | _ => none)

/-- The requests issued and not cancelled. -/
def outstanding (trace : List Effect) : List Nat :=
  (fetched trace).filter (fun c => !(trace.contains (Effect.abort c)))

/-- The searches a timed sequence of input events must cause: one for each
event that no later event follows within 120 ms, with the trimmed value. -/
def debouncedSearches : List (Nat × JsString) → List JsString
  | [] => []
  | (t, value) :: later =>
    (if later.all (fun e => t + 120 ≤ e.1) then [trim value] else []) ++ debouncedSearches later

/-- The page never started a timer or a request and does not listen. -/
def Inert (s : SearchState) : Prop :=
  truthyStr s.endpoint = false ∧ s.listening = false ∧ s.pending = [] ∧ s.trace = []
    ∧ s.calls = []


/-- What holds of the abort controllers between two calls of `performSearch`:
at no point of the trace were two requests outstanding, every aborted
controller has been created, and the active controller, if any, carries the
last request issued, the only one outstanding; when the endpoint does not
parse no request has been issued. -/
def ControllerInv (s : SearchState) : Prop :=
  (∀ p, p <+: s.trace → (outstanding p).length ≤ 1) ∧
  (∀ c, Effect.abort c ∈ s.trace → c < s.nextController) ∧
  (match s.activeController with
    | none => fetched s.trace = []
    | some c => c < s.nextController ∧
        if s.endpointParses then
          outstanding s.trace = [c] ∧ (fetched s.trace).getLast? = some c
        else fetched s.trace = [])

/-- A sequence of `performSearch` calls, one per query. -/
def searchAll (queries : List JsString) (s : SearchState) : SearchState :=
  queries.foldl (fun acc q => performSearch q acc) s

/-- The input listener is attached, the search box exists and no timer is
pending. -/
def Quiet (s : SearchState) : Prop :=
  s.listening = true ∧ (∃ v, s.searchInput = some v) ∧ s.nextTimer ≠ 0 ∧ s.pending = []

/-- The input listener is attached and exactly one timer is pending: the
debounce timer, set at the current instant for the query `q`. -/
def Armed (s : SearchState) (q : JsString) : Prop :=
  s.listening = true ∧ (∃ v, s.searchInput = some v) ∧ s.nextTimer ≠ 0 ∧
    ∃ tm, s.pending = [tm] ∧ tm.due = s.now + 120 ∧ tm.query = q
      ∧ s.debounceTimer = some tm.id ∧ tm.id ≠ 0

/-- The input events of a typing session as page events. -/
def inputEvents (evs : List (Nat × JsString)) : List PageEvent :=
  evs.map (fun e => PageEvent.input e.1 e.2)

/-! ## The theme controller -/

/-- The document and the browser storage as `theme.9f474ab98c3e.js` sees
them: the `data-theme` attribute of the root element, the entries of
`localStorage`, whether `#themeToggle` exists, whether its click listener is
attached, and the custom events the script has dispatched on the document. -/
structure ThemePage where
  dataTheme : Option JsString
  storage : List (JsString × JsString)
  toggle : Bool
  clickListener : Bool
  dispatched : List JsString
  deriving DecidableEq, Repr

/-- The constant `STORAGE_KEY`. -/
def STORAGE_KEY : JsString := "erms-theme".toList

/-- The call `localStorage.setItem(key, value)`. -/
def setItem (key value : JsString) (storage : List (JsString × JsString)) :
    List (JsString × JsString) :=
  (key, value) :: storage.filter (fun p => p.1 != key)

/-- The call `localStorage.getItem(key)`; `none` is `null`. -/
def getItem (key : JsString) (storage : List (JsString × JsString)) : Option JsString :=
  storage.lookup key

/-- The function `setTheme(theme)`. -/
def setTheme (theme : JsString) (p : ThemePage) : ThemePage :=
  { p with dataTheme := some theme, storage := setItem STORAGE_KEY theme p.storage }

/-- The function `getTheme()`. -/
def getTheme (p : ThemePage) : Option JsString :=
  getItem STORAGE_KEY p.storage

/-- The function `init()`, run on `DOMContentLoaded`. -/
def init (p : ThemePage) : ThemePage :=
  let p1 :=
    match getTheme p with
    | some (c :: cs) => setTheme (c :: cs) p
    | _ => p
  if p1.toggle then { p1 with clickListener := true } else p1

/-- A click inside the toggle.  `target` is the `data-theme-target` attribute
of the closest enclosing element that has one, `none` when there is none. -/
def click (target : Option JsString) (p : ThemePage) : ThemePage :=
  if p.clickListener then
    match target with
    | some (c :: cs) => setTheme (c :: cs) p
    | _ => p
  else p

/-- A new page load: a fresh document whose root carries the attribute the
server rendered, the same storage, no listener yet. -/
def reload (serverTheme : Option JsString) (p : ThemePage) : ThemePage :=
  { dataTheme := serverTheme, storage := p.storage, toggle := p.toggle, clickListener := false,
    dispatched := [] }

/-! ## The chart initialiser -/

/-- The four chart targets. -/
inductive ChartTarget where
  | department
  | status
  | salary
  | tenure
  deriving DecidableEq, Repr

/-- The text of a data island as `JSON.parse` reads it: not JSON, a falsy
JSON value, or an object with labels and values. -/
inductive IslandJson where
  | malformed
  | falsy
  | data (labels : List JsString) (values : List Int)
  deriving DecidableEq, Repr

/-- The configuration object passed to `new Chart`: its type and data. -/
structure ChartConfig where
  type : JsString
  labels : List JsString
  values : List Int
  deriving DecidableEq, Repr

/-- A chart instance registered by the charting library. -/
structure ChartInstance where
  id : Nat
  canvas : ChartTarget
  config : ChartConfig
  deriving DecidableEq, Repr

/-- The page as the chart initialiser sees it: whether the global `Chart`
exists, which canvases and data islands exist, and the library's registry of
live chart instances. -/
structure ChartPage where
  chartLibrary : Bool
  canvas : ChartTarget → Bool
  island : ChartTarget → Option IslandJson
  live : List ChartInstance
  nextChart : Nat

/-- Modelled from the spec: the charting library is an external collaborator
(not under src/); `Chart.getChart(canvas)` returns the live chart drawn on the
canvas, if any. -/
def getChart (canvas : ChartTarget) (p : ChartPage) : Option ChartInstance :=
  p.live.find? (fun c => c.canvas = canvas)

/-- Modelled from the spec: the charting library's `chart.destroy()` removes
the instance from the registry, which is keyed by chart id. -/
def destroy (chart : ChartInstance) (p : ChartPage) : ChartPage :=
  { p with live := p.live.filter (fun c => c.id != chart.id) }

/-- Modelled from the spec: the charting library's `new Chart(canvas, config)`
registers a new instance under a fresh id.  The registry does not refuse a
canvas that already carries a chart. -/
def newChart (canvas : ChartTarget) (config : ChartConfig) (p : ChartPage) : ChartPage :=
  { p with
    live := p.live ++ [{ id := p.nextChart, canvas := canvas, config := config }]
    nextChart := p.nextChart + 1 }

/-- The arrow function `renderChart(canvas, config)` for an existing canvas. -/
def renderChart (canvas : ChartTarget) (config : ChartConfig) (p : ChartPage) : ChartPage :=
  let p1 :=
    match getChart canvas p with
    | some existing => destroy existing p
    | none => p
  newChart canvas config p1

/-- The expression `element ? JSON.parse(element.textContent) : null`: `none`
when parsing throws, `some none` for a missing island or a falsy value. -/
def parseIsland : Option IslandJson → Option (Option (List JsString × List Int))
  | none => some none
  | some .malformed => none
  | some .falsy => some none
  | some (.data labels values) => some (some (labels, values))

/-- One guarded block `if (canvas && data) { renderChart(canvas, {...}) }`. -/
def drawIfPresent (canvas : ChartTarget) (type : JsString)
    (data : Option (List JsString × List Int)) (p : ChartPage) : ChartPage :=
  match p.canvas canvas, data with
  | true, some (labels, values) =>
    renderChart canvas { type := type, labels := labels, values := values } p
  | _, _ => p

/-- The function `initCharts()` as far as the chart registry goes (canvas
sizes, fonts and colours are not modelled); `none` when a `JSON.parse` throws,
which happens before any chart is touched. -/
def initCharts (p : ChartPage) : Option ChartPage :=
  if !p.chartLibrary then some p
  else do
    let departmentData ← parseIsland (p.island .department)
    let statusData ← parseIsland (p.island .status)
    let salaryData ← parseIsland (p.island .salary)
    let tenureData ← parseIsland (p.island .tenure)
    let p1 := drawIfPresent .department "doughnut".toList departmentData p
    let p2 := drawIfPresent .status "bar".toList statusData p1
    let p3 := drawIfPresent .salary "bar".toList salaryData p2
    pure (drawIfPresent .tenure "bar".toList tenureData p3)

/-- The handlers of `load` and of `erms:theme-change` run one after the
other: `n` runs of `initCharts`. -/
def initChartsTimes : Nat → ChartPage → Option ChartPage
  | 0, p => some p
  | n + 1, p => (initChartsTimes n p).bind initCharts

/-- The chart type `initCharts` gives each canvas. -/
def chartType : ChartTarget → JsString
  | .department => "doughnut".toList
  | _ => "bar".toList

/-- Number of live charts on a canvas. -/
def chartsOn (canvas : ChartTarget) (p : ChartPage) : Nat :=
  (p.live.filter (fun c => c.canvas = canvas)).length

/-- Chart ids are distinct and below the next id. -/
def RegistryOk (p : ChartPage) : Prop :=
  (∀ x ∈ p.live, ∀ y ∈ p.live, x.id = y.id → x = y) ∧ ∀ x ∈ p.live, x.id < p.nextChart

/-- A page with all four canvases, but no data island for the tenure chart. -/
def samplePage : ChartPage :=
  { chartLibrary := true
    canvas := fun _ => true
    island := fun t =>
      match t with
      | .tenure => none
      | _ => some (.data ["IT".toList, "HR".toList] [3, 2])
    live := []
    nextChart := 0 }

/-! # Theorems -/

/-! ## Escaping -/

theorem replaceAll_append (c : Char) (r a b : JsString) :
    replaceAll c r (a ++ b) = replaceAll c r a ++ replaceAll c r b := by
  simp [replaceAll]

theorem escapeHtmlStr_append (a b : JsString) :
    escapeHtmlStr (a ++ b) = escapeHtmlStr a ++ escapeHtmlStr b := by
  simp [escapeHtmlStr, replaceAll_append]

theorem escapeHtmlStr_singleton (x : Char) : escapeHtmlStr [x] = escapeChar x := by
  by_cases h1 : x = '&'
  · subst h1; decide
  by_cases h2 : x = '<'
  · subst h2; decide
  by_cases h3 : x = '>'
  · subst h3; decide
  by_cases h4 : x = '"'
  · subst h4; decide
  by_cases h5 : x = apostrophe
  · subst h5; decide
  simp [escapeHtmlStr, replaceAll, escapeChar, h1, h2, h3, h4, h5]

theorem escapeHtmlStr_eq_flatMap (s : JsString) :
    escapeHtmlStr s = s.flatMap escapeChar := by
  induction s with
  | nil => rfl
  | cons x s ih =>
    have h : x :: s = [x] ++ s := rfl
    rw [h, escapeHtmlStr_append, ih, escapeHtmlStr_singleton]
    simp

theorem escapeChar_safe (x ch : Char) (h : ch ∈ escapeChar x) :
    ch ≠ '<' ∧ ch ≠ '>' ∧ ch ≠ '"' ∧ ch ≠ apostrophe := by
  unfold escapeChar at h
  split_ifs at h with h1 h2 h3 h4 h5
  · revert ch; decide
  · revert ch; decide
  · revert ch; decide
  · revert ch; decide
  · revert ch; decide
  · simp at h; subst h; exact ⟨h2, h3, h4, h5⟩

theorem escapeHtmlStr_safe (s : JsString) (ch : Char) (h : ch ∈ escapeHtmlStr s) :
    ch ≠ '<' ∧ ch ≠ '>' ∧ ch ≠ '"' ∧ ch ≠ apostrophe := by
  rw [escapeHtmlStr_eq_flatMap, List.mem_flatMap] at h
  obtain ⟨x, _, hx⟩ := h
  exact escapeChar_safe x ch hx

theorem ampsBeginEntities_append (a b : JsString)
    (ha : ampsBeginEntities a = true) (hb : ampsBeginEntities b = true) :
    ampsBeginEntities (a ++ b) = true := by
  induction a with
  | nil => simpa using hb
  | cons c cs ih =>
    simp only [ampsBeginEntities, Bool.and_eq_true, Bool.or_eq_true, List.any_eq_true] at ha
    simp only [List.cons_append, ampsBeginEntities, Bool.and_eq_true, Bool.or_eq_true,
      List.any_eq_true]
    refine ⟨?_, ih ha.2⟩
    rcases ha.1 with h | ⟨e, he, hp⟩
    · exact Or.inl h
    · refine Or.inr ⟨e, he, ?_⟩
      rw [List.isPrefixOf_iff_prefix] at hp ⊢
      exact hp.trans (List.prefix_append (c :: cs) b)

theorem ampsBeginEntities_escapeChar (x : Char) : ampsBeginEntities (escapeChar x) = true := by
  unfold escapeChar
  split_ifs with h1 h2 h3 h4 h5
  · decide
  · decide
  · decide
  · decide
  · decide
  · simp [ampsBeginEntities, h1]

theorem ampsBeginEntities_escapeHtmlStr (s : JsString) :
    ampsBeginEntities (escapeHtmlStr s) = true := by
  rw [escapeHtmlStr_eq_flatMap]
  induction s with
  | nil => rfl
  | cons x s ih =>
    rw [List.flatMap_cons]
    exact ampsBeginEntities_append _ _ (ampsBeginEntities_escapeChar x) ih

theorem ampsBeginEntities_split (c pre post : JsString)
    (h : ampsBeginEntities c = true) (hc : c = pre ++ '&' :: post) :
    ∃ e ∈ entities, e <+: '&' :: post := by
  induction pre generalizing c with
  | nil =>
    subst hc
    simp only [List.nil_append, ampsBeginEntities, Bool.and_eq_true, Bool.or_eq_true,
      List.any_eq_true] at h
    rcases h.1 with h0 | ⟨e, he, hp⟩
    · simp at h0
    · exact ⟨e, he, List.isPrefixOf_iff_prefix.mp hp⟩
  | cons p ps ih =>
    subst hc
    simp only [List.cons_append, ampsBeginEntities, Bool.and_eq_true] at h
    exact ih _ h.2 rfl
/-! ## Counting rows -/

theorem countRows_append (t : Tok) (a b : JsString) :
    countRows t (a ++ b) = countRows t a + countRows (tokAfter t a) b := by
  induction a generalizing t with
  | nil => simp [countRows, tokAfter]
  | cons c cs ih =>
    have h := ih (tokStep t c)
    simp only [tokAfter] at h
    simp only [List.cons_append, countRows, tokAfter, List.foldl_cons]
    rw [show cs.append b = cs ++ b from rfl, h]
    omega

theorem tokAfter_append (t : Tok) (a b : JsString) :
    tokAfter t (a ++ b) = tokAfter (tokAfter t a) b := by
  simp [tokAfter, List.foldl_append]

theorem Reads.append {t t2 t3 : Tok} {a b : JsString} {n m : Nat}
    (ha : Reads t a t2 n) (hb : Reads t2 b t3 m) : Reads t (a ++ b) t3 (n + m) := by
  obtain ⟨a1, a2⟩ := ha
  obtain ⟨b1, b2⟩ := hb
  exact ⟨by rw [tokAfter_append, a1, b1], by rw [countRows_append, a1, a2, b2]⟩

theorem reads_text (a : JsString) (h : ∀ c ∈ a, c ≠ '<') : Reads Tok.data a Tok.data 0 := by
  induction a with
  | nil => exact ⟨rfl, rfl⟩
  | cons c cs ih =>
    have hc : c ≠ '<' := h c (List.mem_cons_self _ _)
    obtain ⟨i1, i2⟩ := ih (fun x hx => h x (List.mem_cons_of_mem _ hx))
    have hs : tokStep Tok.data c = Tok.data := by simp [tokStep, Tok.data, hc]
    have ho : opensRow Tok.data c = false := by simp [opensRow, Tok.data]
    exact ⟨by rw [tokAfter, List.foldl_cons, hs]; exact i1,
      by rw [countRows, hs, ho, i2]; rfl⟩

theorem reads_href (a : JsString) (h : ∀ c ∈ a, c ≠ '"') : Reads inHref a inHref 0 := by
  induction a with
  | nil => exact ⟨rfl, rfl⟩
  | cons c cs ih =>
    have hc : c ≠ '"' := h c (List.mem_cons_self _ _)
    obtain ⟨i1, i2⟩ := ih (fun x hx => h x (List.mem_cons_of_mem _ hx))
    have hs : tokStep inHref c = inHref := by simp [tokStep, inHref, hc]
    have ho : opensRow inHref c = false := by simp [opensRow, inHref]
    exact ⟨by rw [tokAfter, List.foldl_cons, hs]; exact i1,
      by rw [countRows, hs, ho, i2]; rfl⟩
/-! ## Row markup -/

theorem escapeHtml_eq_some (v : JsVal) (x : JsString) (h : escapeHtml v = some x) :
    ∃ s, v = .str s ∧ x = escapeHtmlStr s := by
  rcases v with _ | _ | s | ⟨t, r⟩
  · cases h
  · cases h
  · simp only [escapeHtml, Option.some.injEq] at h
    exact ⟨s, rfl, h.symm⟩
  · cases h

theorem escapeHtml_orElse_some (v : JsVal) (x : JsString)
    (h : escapeHtml (v.orElse (.str [])) = some x) : x = escapeHtmlStr (cellValue v) := by
  obtain ⟨s, hs, hx⟩ := escapeHtml_eq_some _ x h
  rw [hx, cellValue, hs]
  rfl

theorem escapeHtml_orElse_str (s : JsString) :
    escapeHtml ((JsVal.str s).orElse (.str [])) = some (escapeHtmlStr (cellValue (.str s))) := by
  cases s <;> rfl

theorem rowHtml_eq_some (e : Employee) (html : JsString) (h : rowHtml e = some html) :
    ∃ c1 c2, e.employee_id = .str c1 ∧ e.name = .str c2 ∧
      html = rowLit0 ++ escapeHtmlStr c1 ++ rowLit1 ++ escapeHtmlStr c2
        ++ rowLit2 ++ escapeHtmlStr (cellValue e.role)
        ++ rowLit3 ++ escapeHtmlStr (cellValue e.department)
        ++ rowLit4 ++ escapeHtmlStr (cellValue e.status)
        ++ rowLit5 ++ escapeHtmlStr (cellValue e.hire_date)
        ++ rowLit6 ++ e.detail_url.toStr ++ rowLit7 ++ e.edit_url.toStr
        ++ rowLit8 ++ e.delete_url.toStr ++ rowLit9 := by
  unfold rowHtml at h
  simp only [Option.bind_eq_bind, Option.pure_def, Option.bind_eq_some] at h
  obtain ⟨x1, h1, x2, h2, x3, h3, x4, h4, x5, h5, x6, h6, h7⟩ := h
  obtain ⟨c1, hc1, rfl⟩ := escapeHtml_eq_some _ _ h1
  obtain ⟨c2, hc2, rfl⟩ := escapeHtml_eq_some _ _ h2
  have e3 := escapeHtml_orElse_some _ _ h3
  have e4 := escapeHtml_orElse_some _ _ h4
  have e5 := escapeHtml_orElse_some _ _ h5
  have e6 := escapeHtml_orElse_some _ _ h6
  subst e3 e4 e5 e6
  simp only [Option.some.injEq] at h7
  exact ⟨c1, c2, hc1, hc2, h7.symm⟩

theorem isStr_eq (v : JsVal) (h : v.isStr = true) : ∃ s, v = .str s := by
  rcases v with _ | _ | s | ⟨t, r⟩
  · cases h
  · cases h
  · exact ⟨s, rfl⟩
  · cases h

theorem rowHtml_of_stringFields (e : Employee) (h : e.stringFields = true) :
    ∃ html, rowHtml e = some html := by
  simp only [Employee.stringFields, Bool.and_eq_true] at h
  obtain ⟨⟨⟨⟨⟨⟨⟨⟨h1, h2⟩, h3⟩, h4⟩, h5⟩, h6⟩, -⟩, -⟩, -⟩ := h
  obtain ⟨c1, e1⟩ := isStr_eq _ h1
  obtain ⟨c2, e2⟩ := isStr_eq _ h2
  obtain ⟨c3, e3⟩ := isStr_eq _ h3
  obtain ⟨c4, e4⟩ := isStr_eq _ h4
  obtain ⟨c5, e5⟩ := isStr_eq _ h5
  obtain ⟨c6, e6⟩ := isStr_eq _ h6
  unfold rowHtml
  rw [e1, e2, e3, e4, e5, e6]
  simp only [escapeHtml_orElse_str, Option.bind_eq_bind, Option.some_bind, Option.pure_def]
  simp only [escapeHtml, Option.some_bind]
  exact ⟨_, rfl⟩

theorem escapeHtmlStr_clean (s : JsString) : ∀ c ∈ escapeHtmlStr s, c ≠ '<' :=
  fun c hc => (escapeHtmlStr_safe s c hc).1

theorem reads_row (e : Employee) (html : JsString) (h : rowHtml e = some html)
    (hd : '"' ∉ e.detail_url.toStr) (he : '"' ∉ e.edit_url.toStr)
    (hx : '"' ∉ e.delete_url.toStr) : Reads Tok.data html Tok.data 1 := by
  obtain ⟨c1, c2, -, -, rfl⟩ := rowHtml_eq_some e html h
  have l0 : Reads Tok.data rowLit0 Tok.data 1 := ⟨by decide, by decide⟩
  have l1 : Reads Tok.data rowLit1 Tok.data 0 := ⟨by decide, by decide⟩
  have l2 : Reads Tok.data rowLit2 Tok.data 0 := ⟨by decide, by decide⟩
  have l3 : Reads Tok.data rowLit3 Tok.data 0 := ⟨by decide, by decide⟩
  have l4 : Reads Tok.data rowLit4 Tok.data 0 := ⟨by decide, by decide⟩
  have l5 : Reads Tok.data rowLit5 Tok.data 0 := ⟨by decide, by decide⟩
  have l6 : Reads Tok.data rowLit6 inHref 0 := ⟨by decide, by decide⟩
  have l7 : Reads inHref rowLit7 inHref 0 := ⟨by decide, by decide⟩
  have l8 : Reads inHref rowLit8 inHref 0 := ⟨by decide, by decide⟩
  have l9 : Reads inHref rowLit9 Tok.data 0 := ⟨by decide, by decide⟩
  have t := fun s => reads_text (escapeHtmlStr s) (escapeHtmlStr_clean s)
  have u1 := reads_href e.detail_url.toStr (fun c hc hq => hd (hq ▸ hc))
  have u2 := reads_href e.edit_url.toStr (fun c hc hq => he (hq ▸ hc))
  have u3 := reads_href e.delete_url.toStr (fun c hc hq => hx (hq ▸ hc))
  exact ((((((((((((((((((l0.append (t c1)).append l1).append (t c2)).append l2).append
    (t _)).append l3).append (t _)).append l4).append (t _)).append l5).append
    (t _)).append l6).append u1).append l7).append u2).append l8).append u3).append l9)

theorem mapThrowing_eq_some {α β : Type} (f : α → Option β) (xs : List α) (ys : List β) :
    mapThrowing f xs = some ys ↔ List.Forall₂ (fun x y => f x = some y) xs ys := by
  induction xs generalizing ys with
  | nil =>
    constructor
    · intro h
      simp only [mapThrowing, Option.some.injEq] at h
      subst h
      exact List.Forall₂.nil
    · intro h; cases h; rfl
  | cons x xs ih =>
    constructor
    · intro h
      rcases h1 : f x with _ | y
      · simp [mapThrowing, h1] at h
      rcases h2 : mapThrowing f xs with _ | zs
      · simp [mapThrowing, h1, h2] at h
      simp only [mapThrowing, h1, h2, Option.some.injEq] at h
      subst h
      exact List.Forall₂.cons h1 ((ih zs).mp h2)
    · intro h
      cases h with
      | cons h1 h2 =>
        simp [mapThrowing, h1, (ih _).mpr h2]

theorem mapThrowing_rowHtml_total (results : List Employee)
    (hs : ∀ e ∈ results, e.stringFields = true) :
    ∃ rows, mapThrowing rowHtml results = some rows := by
  induction results with
  | nil => exact ⟨[], rfl⟩
  | cons e es ih =>
    obtain ⟨rs, hrs⟩ := ih (fun x hx => hs x (List.mem_cons_of_mem _ hx))
    obtain ⟨r, hr⟩ := rowHtml_of_stringFields e (hs e (List.mem_cons_self _ _))
    exact ⟨r :: rs, by simp only [mapThrowing, hr, hrs]⟩

theorem reads_rows (results : List Employee) (rows : List JsString)
    (h : List.Forall₂ (fun e r => rowHtml e = some r) results rows)
    (hu : ∀ e ∈ results, '"' ∉ e.detail_url.toStr ∧ '"' ∉ e.edit_url.toStr
      ∧ '"' ∉ e.delete_url.toStr) :
    Reads Tok.data rows.flatten Tok.data results.length := by
  induction h with
  | nil => exact ⟨rfl, rfl⟩
  | @cons e r es rs h1 _ ih =>
    obtain ⟨a, b, c⟩ := hu e (List.mem_cons_self _ _)
    have hr := reads_row e r h1 a b c
    have := hr.append (ih (fun x hx => hu x (List.mem_cons_of_mem _ hx)))
    rw [List.flatten_cons, List.length_cons, Nat.add_comm]
    exact this

/-- C1 (amended): with the table body present, an empty result list sets the
body to the single `no-results` row (one cell, colspan 7, text
`No employees found.`); a list of N >= 1 results with string fields whose
three link targets contain no double quote sets it to the concatenation, in
list order, of the N row markups, in which the HTML tokenizer reads exactly N
`<tr>` start tags. -/
theorem renderRows_row_count (results : List Employee) (dom : SearchDom) (tb : JsString)
    (htb : dom.tableBody = some tb)
    (hs : ∀ e ∈ results, e.stringFields = true)
    (hu : ∀ e ∈ results, '"' ∉ e.detail_url.toStr ∧ '"' ∉ e.edit_url.toStr
      ∧ '"' ∉ e.delete_url.toStr) :
    ∃ html, renderRows results dom = some { dom with tableBody := some html } ∧
      (results = [] →
        html = "<tr class=\"no-results\"><td colspan=\"7\">No employees found.</td></tr>".toList
          ∧ countRows Tok.data html = 1) ∧
      (results ≠ [] → ∃ rows, List.Forall₂ (fun e r => rowHtml e = some r) results rows
        ∧ rows.length = results.length ∧ html = rows.flatten
        ∧ countRows Tok.data html = results.length) := by
  rcases results with _ | ⟨e, es⟩
  · refine ⟨noResultsRow, ?_, fun _ => ⟨rfl, by decide⟩, fun h => absurd rfl h⟩
    simp [renderRows, htb]
  · obtain ⟨rows, hrows⟩ := mapThrowing_rowHtml_total (e :: es) hs
    have hf := (mapThrowing_eq_some rowHtml (e :: es) rows).mp hrows
    refine ⟨rows.flatten, ?_, (fun h => by cases h), fun _ => ⟨rows, hf, hf.length_eq.symm, rfl,
      (reads_rows _ _ hf hu).2⟩⟩
    simp [renderRows, htb, hrows]

/-- Witness for C1: two results with string fields and ordinary links. -/
theorem renderRows_row_count_witness :
    ∃ html, renderRows [plainEmployee, plainEmployee] ⟨some [], none, none⟩
        = some { (⟨some [], none, none⟩ : SearchDom) with tableBody := some html } ∧
      ([plainEmployee, plainEmployee] = [] →
        html = "<tr class=\"no-results\"><td colspan=\"7\">No employees found.</td></tr>".toList
          ∧ countRows Tok.data html = 1) ∧
      ([plainEmployee, plainEmployee] ≠ [] →
        ∃ rows, List.Forall₂ (fun e r => rowHtml e = some r) [plainEmployee, plainEmployee] rows
        ∧ rows.length = [plainEmployee, plainEmployee].length ∧ html = rows.flatten
        ∧ countRows Tok.data html = [plainEmployee, plainEmployee].length) :=
  renderRows_row_count [plainEmployee, plainEmployee] ⟨some [], none, none⟩ [] rfl
    (by decide) (by decide)

set_option maxRecDepth 100000 in
/-- C1 as stated fails: one result with nine string fields, whose detail link
closes its `href` attribute and opens a row, makes `renderRows` write markup
in which the HTML tokenizer reads two `<tr>` start tags for a list of length
one. -/
theorem renderRows_row_count_counterexample :
    injectedEmployee.stringFields = true ∧
    ((renderRows [injectedEmployee] ⟨some [], none, none⟩).bind
        (fun d => d.tableBody)).map (countRows Tok.data) = some 2
      ∧ [injectedEmployee].length = 1 := by
  decide

theorem escapeHtmlStr_amps (v pre post : JsString) (h : escapeHtmlStr v = pre ++ '&' :: post) :
    ∃ ent ∈ entities, ent <+: '&' :: post :=
  ampsBeginEntities_split _ pre post (ampsBeginEntities_escapeHtmlStr v) h

/-- C2: every row `renderRows` writes has, as the text of its six data cells,
the field value (`''` for a missing role, department, status or hire date)
passed through `escapeHtml`; that text is the value with each `&`, `<`, `>`,
double quote and apostrophe replaced by its entity, so it holds none of
`<`, `>`, double quote, apostrophe, and each `&` in it begins one of the
five entities; `<script>` becomes `&lt;script&gt;`. -/
theorem renderRows_cells_escaped (results : List Employee) (dom dom' : SearchDom)
    (tb : JsString) (htb : dom.tableBody = some tb) (hne : results ≠ [])
    (h : renderRows results dom = some dom') :
    (∃ rows, dom'.tableBody = some rows.flatten ∧
      List.Forall₂ (fun e row => ∃ c1 c2, e.employee_id = .str c1 ∧ e.name = .str c2 ∧
        row = rowLit0 ++ escapeHtmlStr c1 ++ rowLit1 ++ escapeHtmlStr c2
          ++ rowLit2 ++ escapeHtmlStr (cellValue e.role)
          ++ rowLit3 ++ escapeHtmlStr (cellValue e.department)
          ++ rowLit4 ++ escapeHtmlStr (cellValue e.status)
          ++ rowLit5 ++ escapeHtmlStr (cellValue e.hire_date)
          ++ rowLit6 ++ e.detail_url.toStr ++ rowLit7 ++ e.edit_url.toStr
          ++ rowLit8 ++ e.delete_url.toStr ++ rowLit9) results rows) ∧
    (∀ v : JsString, escapeHtmlStr v = v.flatMap escapeChar ∧
      (∀ ch ∈ escapeHtmlStr v, ch ≠ '<' ∧ ch ≠ '>' ∧ ch ≠ '"' ∧ ch ≠ apostrophe) ∧
      (∀ pre post, escapeHtmlStr v = pre ++ '&' :: post →
        ∃ ent ∈ entities, ent <+: '&' :: post)) ∧
    escapeHtmlStr "<script>".toList = "&lt;script&gt;".toList := by
  refine ⟨?_, fun v => ⟨escapeHtmlStr_eq_flatMap v, escapeHtmlStr_safe v,
    escapeHtmlStr_amps v⟩, by decide⟩
  have hlen : ¬ results.length = 0 := by
    intro h0
    exact hne (List.length_eq_zero.mp h0)
  unfold renderRows at h
  rw [htb] at h
  simp only [hlen, if_false] at h
  rcases hm : mapThrowing rowHtml results with _ | rows
  · rw [hm] at h; cases h
  · rw [hm] at h
    simp only [Option.bind_eq_bind, Option.some_bind, Option.pure_def, Option.some.injEq] at h
    subst h
    refine ⟨rows, rfl, ?_⟩
    have hf := (mapThrowing_eq_some rowHtml results rows).mp hm
    exact hf.imp (fun e r hr => rowHtml_eq_some e r hr)

/-- Witness for C2: one result whose name contains a double quote. -/
theorem renderRows_cells_escaped_witness :
    (∃ rows, (SearchDom.mk (some (List.flatten [(rowHtml quotedEmployee).getD []])) none
        none).tableBody = some rows.flatten ∧
      List.Forall₂ (fun e row => ∃ c1 c2, e.employee_id = .str c1 ∧ e.name = .str c2 ∧
        row = rowLit0 ++ escapeHtmlStr c1 ++ rowLit1 ++ escapeHtmlStr c2
          ++ rowLit2 ++ escapeHtmlStr (cellValue e.role)
          ++ rowLit3 ++ escapeHtmlStr (cellValue e.department)
          ++ rowLit4 ++ escapeHtmlStr (cellValue e.status)
          ++ rowLit5 ++ escapeHtmlStr (cellValue e.hire_date)
          ++ rowLit6 ++ e.detail_url.toStr ++ rowLit7 ++ e.edit_url.toStr
          ++ rowLit8 ++ e.delete_url.toStr ++ rowLit9) [quotedEmployee] rows) ∧
    (∀ v : JsString, escapeHtmlStr v = v.flatMap escapeChar ∧
      (∀ ch ∈ escapeHtmlStr v, ch ≠ '<' ∧ ch ≠ '>' ∧ ch ≠ '"' ∧ ch ≠ apostrophe) ∧
      (∀ pre post, escapeHtmlStr v = pre ++ '&' :: post →
        ∃ ent ∈ entities, ent <+: '&' :: post)) ∧
    escapeHtmlStr "<script>".toList = "&lt;script&gt;".toList :=
  renderRows_cells_escaped [quotedEmployee] ⟨some [], none, none⟩ _ [] rfl (by decide) rfl

set_option maxRecDepth 100000 in
/-- C10: in every row `renderRows` produces, the three `href` values are the
`detail_url`, `edit_url` and `delete_url` fields character for character, not
passed through `escapeHtml`; a link containing a double quote therefore puts
that raw character inside the attribute, while the same text in the name cell
is written `&quot;`. -/
theorem rowHtml_urls_verbatim (e : Employee) (d ed del html : JsString)
    (hd : e.detail_url = .str d) (hed : e.edit_url = .str ed) (hdel : e.delete_url = .str del)
    (h : rowHtml e = some html) :
    (∃ cells, html = cells ++ "<a href=\"".toList ++ d
        ++ "\">View</a>\n            <a href=\"".toList ++ ed
        ++ "\">Edit</a>\n            <a class=\"danger\" href=\"".toList ++ del
        ++ "\">Delete</a>\n          </td>\n        </tr>\n      ".toList) ∧
    (∃ row, rowHtml quotedEmployee = some row ∧
      quotedEmployee.detail_url = .str "x\"y".toList ∧
      quotedEmployee.name = .str "x\"y".toList ∧
      "<a href=\"x\"y\">View</a>".toList <:+: row ∧
      "<td>x&quot;y</td>".toList <:+: row) := by
  constructor
  · obtain ⟨c1, c2, -, -, rfl⟩ := rowHtml_eq_some e html h
    rw [hd, hed, hdel]
    refine ⟨rowLit0 ++ escapeHtmlStr c1 ++ rowLit1 ++ escapeHtmlStr c2
          ++ rowLit2 ++ escapeHtmlStr (cellValue e.role)
          ++ rowLit3 ++ escapeHtmlStr (cellValue e.department)
          ++ rowLit4 ++ escapeHtmlStr (cellValue e.status)
          ++ rowLit5 ++ escapeHtmlStr (cellValue e.hire_date)
          ++ "</td>\n          <td class=\"row-actions\">\n            ".toList, ?_⟩
    have h6 : rowLit6 = "</td>\n          <td class=\"row-actions\">\n            ".toList
        ++ "<a href=\"".toList := by decide
    rw [h6]
    simp only [JsVal.toStr, rowLit7, rowLit8, rowLit9, List.append_assoc]
  · refine ⟨_, rfl, rfl, rfl, ?_, ?_⟩
    · decide
    · decide

/-- Witness for C10: the result with a double quote in its detail link. -/
theorem rowHtml_urls_verbatim_witness :
    (∃ cells, (rowHtml quotedEmployee).getD [] = cells ++ "<a href=\"".toList ++ "x\"y".toList
        ++ "\">View</a>\n            <a href=\"".toList ++ "/employees/8/edit/".toList
        ++ "\">Edit</a>\n            <a class=\"danger\" href=\"".toList
        ++ "/employees/8/delete/".toList
        ++ "\">Delete</a>\n          </td>\n        </tr>\n      ".toList) ∧
    (∃ row, rowHtml quotedEmployee = some row ∧
      quotedEmployee.detail_url = .str "x\"y".toList ∧
      quotedEmployee.name = .str "x\"y".toList ∧
      "<a href=\"x\"y\">View</a>".toList <:+: row ∧
      "<td>x&quot;y</td>".toList <:+: row) :=
  rowHtml_urls_verbatim quotedEmployee _ _ _ _ rfl rfl rfl rfl
/-! ## Settling a request -/

theorem setStatus_tableBody (m : JsString) (dom : SearchDom) :
    (setStatus m dom).tableBody = dom.tableBody := by
  unfold setStatus
  cases dom.statusElement <;> rfl

theorem setStatus_statusElement (m : JsString) (dom : SearchDom) :
    (setStatus m dom).statusElement = dom.statusElement.map (fun _ => m) := by
  unfold setStatus
  cases h : dom.statusElement <;> simp [h]

/-- C4: when the request of `performSearch` fails (the `try` block throws an
error named `name`: a fetch rejection, a non-2xx response, a JSON parse
failure), the table body is left as it was; a cancellation (`AbortError`)
leaves the status text as it was, any other error sets it to
`Unable to fetch employees. Please try again.`. -/
theorem settle_failure (r : FetchResult) (s : SearchState) (name : JsString)
    (h : tryBlock r s = .error name) :
    (settle r s).dom.tableBody = s.dom.tableBody ∧
    (name = "AbortError".toList →
      (settle r s).dom.statusElement = s.dom.statusElement) ∧
    (name ≠ "AbortError".toList →
      (settle r s).dom.statusElement = s.dom.statusElement.map
        (fun _ => "Unable to fetch employees. Please try again.".toList)) ∧
    (∀ n, tryBlock (.rejected n) s = .error n) ∧
    (∀ status body, tryBlock (.response false status body) s = .error "Error".toList) ∧
    (∀ status n, tryBlock (.response true status (.parseError n)) s = .error n) := by
  have hs : settle r s = finallyBlock (catchBlock name s) := by
    unfold settle
    rw [h]
  refine ⟨?_, ?_, ?_, fun n => rfl, fun _ _ => rfl, fun _ _ => rfl⟩
  · rw [hs]
    unfold finallyBlock catchBlock
    split_ifs
    · rfl
    · exact setStatus_tableBody _ _
  · intro hn
    rw [hs]
    unfold finallyBlock catchBlock
    rw [if_pos (by rw [hn]; rfl)]
  · intro hn
    rw [hs]
    unfold finallyBlock catchBlock
    rw [if_neg (by intro e; exact hn (by rw [e]; rfl))]
    exact setStatus_statusElement _ _

/-- Witness for C4: a network failure while a status line and a body exist. -/
theorem settle_failure_witness :
    (settle (.rejected "TypeError".toList)
        (initialState ⟨some "<tr></tr>".toList, some "Searching…".toList, some none⟩ true
          (some []) (some "/search".toList) true)).dom.statusElement
      = some "Unable to fetch employees. Please try again.".toList :=
  ((settle_failure (.rejected "TypeError".toList)
      (initialState ⟨some "<tr></tr>".toList, some "Searching…".toList, some none⟩ true
        (some []) (some "/search".toList) true) "TypeError".toList rfl).2.2.1 (by decide)).trans rfl
/-! ## No endpoint -/

theorem performSearch_no_endpoint (q : JsString) (s : SearchState)
    (h : truthyStr s.endpoint = false) : performSearch q s = s := by
  unfold performSearch
  rcases he : s.endpoint with _ | ⟨_ | ⟨e, es⟩⟩
  · rfl
  · rfl
  · rw [he] at h; simp [truthyStr] at h

theorem settle_frame (r : FetchResult) (s : SearchState) :
    ∃ dom, settle r s = { s with dom := dom } := by
  unfold settle
  rcases h : tryBlock r s with name | s'
  · simp only
    unfold finallyBlock catchBlock
    split_ifs
    · exact ⟨_, rfl⟩
    · exact ⟨_, rfl⟩
  · simp only
    unfold tryBlock at h
    rcases r with n | ⟨ok, st, body⟩
    · simp at h
    · cases ok
      · simp at h
      · rcases body with n | _ | results
        · simp at h
        · simp at h
        · simp only [Bool.not_true, Bool.false_eq_true, if_false] at h
          rcases hr : renderRows (results.getD []) s.dom with _ | dom
          · rw [hr] at h; simp at h
          · rw [hr] at h
            simp only [Except.ok.injEq] at h
            subst h
            exact ⟨_, rfl⟩

theorem runTimers_no_pending (t : Nat) (s : SearchState) (h : s.pending = []) :
    runTimers t s = { s with now := max s.now t } := by
  unfold runTimers
  simp [h]

theorem step_inert (s : SearchState) (e : PageEvent) (h : Inert s) : Inert (step s e) := by
  obtain ⟨h1, h2, h3, h4, h5⟩ := h
  cases e with
  | domContentLoaded =>
    simp only [step, initSearch, h1]
    simp only [Bool.not_false, Bool.or_true, if_true]
    exact ⟨h1, h2, h3, h4, h5⟩
  | input t v =>
    simp only [step, runTimers_no_pending t s h3, h2, Bool.false_eq_true, if_false]
    exact ⟨h1, rfl, h3, h4, h5⟩
  | settled r =>
    obtain ⟨dom, hd⟩ := settle_frame r s
    simp only [step, hd]
    exact ⟨h1, h2, h3, h4, h5⟩
  | idle t =>
    simp only [step, runTimers_no_pending t s h3]
    exact ⟨h1, h2, h3, h4, h5⟩

theorem run_inert (events : List PageEvent) (s : SearchState) (h : Inert s) :
    Inert (run events s) := by
  induction events generalizing s with
  | nil => exact h
  | cons e es ih => exact ih (step s e) (step_inert s e h)

/-- C5: with the search endpoint undefined or empty, `initSearch` attaches no
input listener, `performSearch` returns its state untouched (no controller,
no status change, no fetch), and after any sequence of page events no
platform call has been made and no search has been started. -/
theorem no_fetch_without_endpoint (dom : SearchDom) (searchContainer : Bool)
    (searchInput endpoint : Option JsString) (parses : Bool)
    (h : truthyStr endpoint = false) (events : List PageEvent) :
    (initSearch (initialState dom searchContainer searchInput endpoint parses)).listening = false ∧
    (∀ q s, s.endpoint = endpoint → performSearch q s = s) ∧
    (run events (initialState dom searchContainer searchInput endpoint parses)).trace = [] ∧
    (run events (initialState dom searchContainer searchInput endpoint parses)).calls = [] ∧
    (run events (initialState dom searchContainer searchInput endpoint parses)).pending = [] := by
  have h0 : Inert (initialState dom searchContainer searchInput endpoint parses) :=
    ⟨h, rfl, rfl, rfl, rfl⟩
  have hr := run_inert events _ h0
  refine ⟨(step_inert _ .domContentLoaded h0).2.1, ?_, hr.2.2.2.1, hr.2.2.2.2, hr.2.2.1⟩
  intro q s hs
  exact performSearch_no_endpoint q s (by rw [hs]; exact h)

/-- Witness for C5: typing twice on a page whose container has no endpoint. -/
theorem no_fetch_without_endpoint_witness :
    (run [.domContentLoaded, .input 10 "a".toList, .input 500 "ab".toList, .idle 1000]
      (initialState ⟨some [], some [], some none⟩ true (some []) none true)).trace = [] :=
  (no_fetch_without_endpoint ⟨some [], some [], some none⟩ true (some []) none true rfl
    [.domContentLoaded, .input 10 "a".toList, .input 500 "ab".toList, .idle 1000]).2.2.1
/-! ## One outstanding request -/

theorem fetched_append (a b : List Effect) : fetched (a ++ b) = fetched a ++ fetched b := by
  simp [fetched]

theorem contains_abort_append (tr : List Effect) (x : Effect) (d : Nat) :
    (tr ++ [x]).contains (Effect.abort d) = (tr.contains (Effect.abort d) || x == Effect.abort d) := by
  induction tr with
  | nil =>
    simp only [List.nil_append, List.contains, List.elem, Bool.beq_comm, Bool.false_or]
    cases (x == Effect.abort d) <;> rfl
  | cons y ys ih =>
    simp only [List.cons_append, List.contains_cons, ih, Bool.or_assoc]

theorem outstanding_append_abort (tr : List Effect) (c : Nat) :
    outstanding (tr ++ [Effect.abort c]) = (outstanding tr).filter (fun d => d != c) := by
  unfold outstanding
  rw [fetched_append, List.filter_filter]
  have hf : fetched [Effect.abort c] = [] := rfl
  rw [hf, List.append_nil]
  apply List.filter_congr
  intro d _
  rw [contains_abort_append]
  by_cases hdc : d = c
  · subst hdc; simp
  · have h1 : (Effect.abort c == Effect.abort d) = false := by
      rw [beq_eq_false_iff_ne]
      intro e; injection e with e; exact hdc e.symm
    have h2 : (d != c) = true := by simpa using hdc
    rw [h1, h2]; simp

theorem outstanding_append_newController (tr : List Effect) (c : Nat) :
    outstanding (tr ++ [Effect.newController c]) = outstanding tr := by
  unfold outstanding
  rw [fetched_append]
  have hf : fetched [Effect.newController c] = [] := rfl
  rw [hf, List.append_nil]
  apply List.filter_congr
  intro d _
  rw [contains_abort_append]
  simp

theorem outstanding_append_fetch (tr : List Effect) (c : Nat) (u : SearchUrl)
    (h : Effect.abort c ∉ tr) :
    outstanding (tr ++ [Effect.fetch c u]) = outstanding tr ++ [c] := by
  unfold outstanding
  rw [fetched_append]
  have hf : fetched [Effect.fetch c u] = [c] := rfl
  rw [hf, List.filter_append]
  congr 1
  · apply List.filter_congr
    intro d _
    rw [contains_abort_append]
    simp
  · simp [h]

theorem prefix_of_append_singleton {α : Type} (p l : List α) (x : α) (h : p <+: l ++ [x]) :
    p <+: l ∨ p = l ++ [x] := by
  rcases List.prefix_concat_iff.mp h with h1 | h1
  · right; exact h1
  · left; exact h1

theorem performSearch_fields (q : JsString) (s : SearchState)
    (he : truthyStr s.endpoint = true) :
    (performSearch q s).activeController = some s.nextController ∧
    (performSearch q s).nextController = s.nextController + 1 ∧
    (performSearch q s).endpoint = s.endpoint ∧
    (performSearch q s).pending = s.pending ∧
    (performSearch q s).debounceTimer = s.debounceTimer ∧
    (performSearch q s).nextTimer = s.nextTimer ∧
    (performSearch q s).listening = s.listening ∧
    (performSearch q s).searchInput = s.searchInput ∧
    (performSearch q s).calls = s.calls ∧
    (performSearch q s).now = s.now ∧
    ∃ url, (performSearch q s).trace = s.trace
        ++ (match s.activeController with
            | some c => [Effect.abort c]
            | none => [])
        ++ [Effect.newController s.nextController]
        ++ (if s.endpointParses = true then [Effect.fetch s.nextController url] else []) := by
  rcases hend : s.endpoint with _ | ⟨_ | ⟨e, es⟩⟩
  · rw [hend] at he; simp [truthyStr] at he
  · rw [hend] at he; simp [truthyStr] at he
  rcases hc : s.activeController with _ | c <;> rcases hp : s.endpointParses with _ | _ <;>
    simp [performSearch, hend, hc, hp] <;> exact ⟨⟨[], none⟩, trivial⟩

theorem performSearch_parses (q : JsString) (s : SearchState) :
    (performSearch q s).endpointParses = s.endpointParses := by
  unfold performSearch
  rcases s.endpoint with _ | ⟨_ | ⟨e, es⟩⟩
  · rfl
  · rfl
  · rcases s.activeController with _ | c <;> rcases hp : s.endpointParses with _ | _ <;>
      simp [hp]

theorem outstanding_of_fetched_nil (p : List Effect) (h : fetched p = []) :
    outstanding p = [] := by
  unfold outstanding
  rw [h]
  rfl

theorem fetched_of_prefix_nil (p tr : List Effect) (hp : p <+: tr) (h : fetched tr = []) :
    fetched p = [] := by
  obtain ⟨r, rfl⟩ := hp
  rw [fetched_append] at h
  exact (List.append_eq_nil.mp h).1

theorem performSearch_inv (q : JsString) (s : SearchState) (h : ControllerInv s)
    (he : truthyStr s.endpoint = true) : ControllerInv (performSearch q s) := by
  obtain ⟨hp, ha, hact⟩ := h
  obtain ⟨f1, f2, -, -, -, -, -, -, -, -, url, ftr⟩ := performSearch_fields q s he
  have f3 := performSearch_parses q s
  unfold ControllerInv
  rw [f1, f2, f3, ftr]
  rcases hpar : s.endpointParses with _ | _
  · -- the endpoint does not parse: no request exists
    have hfn : fetched s.trace = [] := by
      rcases hc : s.activeController with _ | c
      · rw [hc] at hact; exact hact
      · rw [hc] at hact
        simp only [hpar] at hact
        exact hact.2
    have hfn2 : fetched (s.trace
        ++ (match s.activeController with
            | some c => [Effect.abort c]
            | none => [])
        ++ [Effect.newController s.nextController]) = [] := by
      rw [fetched_append, fetched_append, hfn]
      rcases s.activeController with _ | c <;> rfl
    simp only [Bool.false_eq_true, if_false, List.append_nil]
    refine ⟨?_, ?_, Nat.lt_succ_self _, hfn2⟩
    · intro p hpre
      rw [outstanding_of_fetched_nil p (fetched_of_prefix_nil p _ hpre hfn2)]
      simp
    · intro d hd
      simp only [List.mem_append, List.mem_singleton] at hd
      rcases hd with (hd | hd) | hd
      · exact Nat.lt_succ_of_lt (ha d hd)
      · rcases hc : s.activeController with _ | c
        · rw [hc] at hd; cases hd
        · rw [hc] at hd hact
          simp only [List.mem_singleton] at hd
          injection hd with hd
          have := hact.1
          omega
      · cases hd
  simp only [if_true]
  rcases hc : s.activeController with _ | c
  · rw [hc] at hact
    simp only at hact
    have hout : outstanding s.trace = [] := outstanding_of_fetched_nil _ hact
    have hfresh : Effect.abort s.nextController ∉ s.trace ++ [Effect.newController s.nextController] := by
      intro hm
      rcases List.mem_append.mp hm with h1 | h1
      · exact absurd (ha _ h1) (lt_irrefl _)
      · simp at h1
    have e1 : outstanding (s.trace ++ [Effect.newController s.nextController]) = [] := by
      rw [outstanding_append_newController, hout]
    have e2 : outstanding (s.trace ++ [Effect.newController s.nextController]
        ++ [Effect.fetch s.nextController url]) = [s.nextController] := by
      rw [outstanding_append_fetch _ _ _ hfresh, e1]; rfl
    simp only [List.append_nil]
    refine ⟨?_, ?_, ?_⟩
    · intro p hpre
      rcases prefix_of_append_singleton _ _ _ hpre with h1 | h1
      · rcases prefix_of_append_singleton _ _ _ h1 with h2 | h2
        · exact hp p h2
        · rw [h2, e1]; simp
      · rw [h1, e2]; simp
    · intro d hd
      simp only [List.mem_append, List.mem_singleton] at hd
      rcases hd with (hd | hd) | hd
      · exact Nat.lt_succ_of_lt (ha d hd)
      · cases hd
      · cases hd
    · refine ⟨Nat.lt_succ_self _, e2, ?_⟩
      rw [fetched_append]
      simp [fetched]
  · rw [hc] at hact
    simp only [hpar, if_true] at hact
    obtain ⟨hlt, hout, _⟩ := hact
    have e0 : outstanding (s.trace ++ [Effect.abort c]) = [] := by
      rw [outstanding_append_abort, hout]; simp
    have e1 : outstanding (s.trace ++ [Effect.abort c] ++ [Effect.newController s.nextController])
        = [] := by
      rw [outstanding_append_newController, e0]
    have hfresh : Effect.abort s.nextController ∉
        s.trace ++ [Effect.abort c] ++ [Effect.newController s.nextController] := by
      intro hm
      simp only [List.mem_append, List.mem_singleton] at hm
      rcases hm with (h1 | h1) | h1
      · exact absurd (ha _ h1) (lt_irrefl _)
      · injection h1 with h1
        omega
      · cases h1
    have e2 : outstanding (s.trace ++ [Effect.abort c]
        ++ [Effect.newController s.nextController]
        ++ [Effect.fetch s.nextController url]) = [s.nextController] := by
      rw [outstanding_append_fetch _ _ _ hfresh, e1]; rfl
    simp only
    refine ⟨?_, ?_, ?_⟩
    · intro p hpre
      rcases prefix_of_append_singleton _ _ _ hpre with h1 | h1
      · rcases prefix_of_append_singleton _ _ _ h1 with h2 | h2
        · rcases prefix_of_append_singleton _ _ _ h2 with h3 | h3
          · exact hp p h3
          · rw [h3, e0]; simp
        · rw [h2, e1]; simp
      · rw [h1, e2]; simp
    · intro d hd
      simp only [List.mem_append, List.mem_singleton] at hd
      rcases hd with ((hd | hd) | hd) | hd
      · exact Nat.lt_succ_of_lt (ha d hd)
      · injection hd with hd
        omega
      · cases hd
      · cases hd
    · refine ⟨Nat.lt_succ_self _, e2, ?_⟩
      rw [fetched_append]
      simp [fetched]

theorem ControllerInv_congr (s t : SearchState) (h : ControllerInv s)
    (h1 : t.trace = s.trace) (h2 : t.nextController = s.nextController)
    (h3 : t.activeController = s.activeController)
    (h4 : t.endpointParses = s.endpointParses) : ControllerInv t := by
  unfold ControllerInv at h ⊢
  rw [h1, h2, h3, h4]
  exact h

theorem performSearch_inv_any (q : JsString) (s : SearchState) (h : ControllerInv s) :
    ControllerInv (performSearch q s) := by
  by_cases he : truthyStr s.endpoint = true
  · exact performSearch_inv q s h he
  · rw [performSearch_no_endpoint q s (by simpa using he)]
    exact h

theorem timerCallback_inv (q : JsString) (s : SearchState) (h : ControllerInv s) :
    ControllerInv (timerCallback q s) :=
  performSearch_inv_any q _ (ControllerInv_congr s _ h rfl rfl rfl rfl)

theorem foldl_timerCallback_inv (ts : List Timer) (s : SearchState) (h : ControllerInv s) :
    ControllerInv (ts.foldl (fun acc tm => timerCallback tm.query acc) s) := by
  induction ts generalizing s with
  | nil => exact h
  | cons t ts ih => exact ih _ (timerCallback_inv t.query s h)

theorem runTimers_inv (t : Nat) (s : SearchState) (h : ControllerInv s) :
    ControllerInv (runTimers t s) :=
  foldl_timerCallback_inv _ _ (ControllerInv_congr s _ h rfl rfl rfl rfl)

theorem handleSearchInput_inv (s : SearchState) (h : ControllerInv s) :
    ControllerInv (handleSearchInput s) := by
  apply ControllerInv_congr s _ h
  · unfold handleSearchInput clearTimeout
    rcases s.debounceTimer with _ | t
    · rfl
    · by_cases h0 : t = 0 <;> simp [h0]
  · unfold handleSearchInput clearTimeout
    rcases s.debounceTimer with _ | t
    · rfl
    · by_cases h0 : t = 0 <;> simp [h0]
  · unfold handleSearchInput clearTimeout
    rcases s.debounceTimer with _ | t
    · rfl
    · by_cases h0 : t = 0 <;> simp [h0]
  · unfold handleSearchInput clearTimeout
    rcases s.debounceTimer with _ | t
    · rfl
    · by_cases h0 : t = 0 <;> simp [h0]

theorem step_inv (s : SearchState) (e : PageEvent) (h : ControllerInv s) :
    ControllerInv (step s e) := by
  cases e with
  | domContentLoaded =>
    apply ControllerInv_congr s _ h <;>
    · unfold step initSearch
      split_ifs <;> rfl
  | input t v =>
    have h1 := runTimers_inv t s h
    have h2 : ControllerInv { runTimers t s with
        searchInput := (runTimers t s).searchInput.map (fun _ => v) } :=
      ControllerInv_congr _ _ h1 rfl rfl rfl rfl
    simp only [step]
    split_ifs
    · exact handleSearchInput_inv _ h2
    · exact h2
  | settled r =>
    obtain ⟨dom, hd⟩ := settle_frame r s
    simp only [step, hd]
    exact ControllerInv_congr s _ h rfl rfl rfl rfl
  | idle t => exact runTimers_inv t s h

theorem run_inv (events : List PageEvent) (s : SearchState) (h : ControllerInv s) :
    ControllerInv (run events s) := by
  induction events generalizing s with
  | nil => exact h
  | cons e es ih => exact ih (step s e) (step_inv s e h)

theorem initialState_inv (dom : SearchDom) (c : Bool) (i e : Option JsString) (b : Bool) :
    ControllerInv (initialState dom c i e b) := by
  refine ⟨?_, ?_, rfl⟩
  · intro p hp
    have : p = [] := List.prefix_nil.mp hp
    subst this
    simp [outstanding, fetched]
  · intro c hc
    simp [initialState] at hc

theorem searchAll_inv (queries : List JsString) (s : SearchState) (h : ControllerInv s) :
    ControllerInv (searchAll queries s) := by
  induction queries generalizing s with
  | nil => exact h
  | cons q qs ih => exact ih _ (performSearch_inv_any q s h)

theorem performSearch_endpoint (q : JsString) (s : SearchState) :
    (performSearch q s).endpoint = s.endpoint := by
  by_cases he : truthyStr s.endpoint = true
  · exact (performSearch_fields q s he).2.2.1
  · rw [performSearch_no_endpoint q s (by simpa using he)]

theorem searchAll_endpoint (queries : List JsString) (s : SearchState) :
    (searchAll queries s).endpoint = s.endpoint
      ∧ (searchAll queries s).endpointParses = s.endpointParses := by
  induction queries generalizing s with
  | nil => exact ⟨rfl, rfl⟩
  | cons q qs ih =>
    exact ⟨(ih _).1.trans (performSearch_endpoint q s),
      (ih _).2.trans (performSearch_parses q s)⟩

theorem searchAll_active (queries : List JsString) (s : SearchState)
    (he : truthyStr s.endpoint = true) (hne : queries ≠ []) :
    ∃ c, (searchAll queries s).activeController = some c := by
  induction queries generalizing s with
  | nil => exact absurd rfl hne
  | cons q qs ih =>
    rcases qs with _ | ⟨q2, qs2⟩
    · exact ⟨_, (performSearch_fields q s he).1⟩
    · exact ih (performSearch q s) (by rw [(performSearch_fields q s he).2.2.1]; exact he)
        (by simp)

theorem outstanding_eq_last (s : SearchState) (h : ControllerInv s) :
    outstanding s.trace = ((fetched s.trace).getLast?).toList := by
  have h3 := h.2.2
  rcases hc : s.activeController with _ | c
  · rw [hc] at h3
    simp only at h3
    rw [outstanding_of_fetched_nil _ h3, h3]
    rfl
  · rw [hc] at h3
    rcases hp : s.endpointParses with _ | _
    · simp only [hp, Bool.false_eq_true, if_false] at h3
      rw [outstanding_of_fetched_nil _ h3.2, h3.2]
      rfl
    · simp only [hp, if_true] at h3
      rw [h3.2.1, h3.2.2]
      rfl

/-- C3: with an endpoint configured, in the trace left by any sequence of
`performSearch` calls (and likewise by any sequence of page events) at most one
request is outstanding, issued and not cancelled, at every point, and the
requests outstanding at the end are the one issued last, if any.  Each call
first aborts the active controller, then creates the new one, then, once
`new URL` has accepted the endpoint, issues the fetch; so when the endpoint
parses the active controller carries the request issued last, the only one
not cancelled, and when it does not parse no request is ever issued. -/
theorem one_outstanding_request (dom : SearchDom) (searchContainer : Bool)
    (searchInput endpoint : Option JsString) (parses : Bool) (h : truthyStr endpoint = true)
    (queries : List JsString) :
    (∀ p, p <+: (searchAll queries
        (initialState dom searchContainer searchInput endpoint parses)).trace →
      (outstanding p).length ≤ 1) ∧
    outstanding (searchAll queries
        (initialState dom searchContainer searchInput endpoint parses)).trace
      = ((fetched (searchAll queries
        (initialState dom searchContainer searchInput endpoint parses)).trace).getLast?).toList ∧
    (parses = true → queries ≠ [] → ∃ c,
      (searchAll queries
        (initialState dom searchContainer searchInput endpoint parses)).activeController
        = some c ∧
      (fetched (searchAll queries
        (initialState dom searchContainer searchInput endpoint parses)).trace).getLast?
        = some c ∧
      outstanding (searchAll queries
        (initialState dom searchContainer searchInput endpoint parses)).trace = [c]) ∧
    (parses = false → fetched (searchAll queries
        (initialState dom searchContainer searchInput endpoint parses)).trace = []) ∧
    (∀ (t : SearchState) (q : JsString), t.endpoint = endpoint →
      ∃ url, (performSearch q t).trace = t.trace
        ++ (match t.activeController with
            | some c => [Effect.abort c]
            | none => [])
        ++ [Effect.newController t.nextController]
        ++ (if t.endpointParses = true then [Effect.fetch t.nextController url] else [])) ∧
    (∀ events p, p <+: (run events
        (initialState dom searchContainer searchInput endpoint parses)).trace →
      (outstanding p).length ≤ 1) := by
  have hinv := searchAll_inv queries _
    (initialState_inv dom searchContainer searchInput endpoint parses)
  have hpar := (searchAll_endpoint queries
    (initialState dom searchContainer searchInput endpoint parses)).2
  refine ⟨hinv.1, outstanding_eq_last _ hinv, ?_, ?_, ?_, ?_⟩
  · intro hp hne
    obtain ⟨c, hc⟩ := searchAll_active queries
      (initialState dom searchContainer searchInput endpoint parses) h hne
    have h3 := hinv.2.2
    rw [hc, hpar] at h3
    have hp2 : (initialState dom searchContainer searchInput endpoint parses).endpointParses
        = true := hp
    simp only [hp2, if_true] at h3
    exact ⟨c, hc, h3.2.2, h3.2.1⟩
  · intro hp
    have h3 := hinv.2.2
    have hp2 : (initialState dom searchContainer searchInput endpoint parses).endpointParses
        = false := hp
    rcases hc : (searchAll queries
        (initialState dom searchContainer searchInput endpoint parses)).activeController
      with _ | c
    · rw [hc] at h3; exact h3
    · rw [hc, hpar] at h3
      simp only [hp2, Bool.false_eq_true, if_false] at h3
      exact h3.2
  · intro t q ht
    exact (performSearch_fields q t (by rw [ht]; exact h)).2.2.2.2.2.2.2.2.2.2
  · intro events
    exact (run_inv events _
      (initialState_inv dom searchContainer searchInput endpoint parses)).1

/-- Witness for C3: three searches in a row on a page with an endpoint. -/
theorem one_outstanding_request_witness :
    truthyStr (some "/employees/search/".toList) = true ∧
    ∀ p, p <+: (searchAll ["a".toList, "ab".toList, "abc".toList]
        (initialState ⟨some [], some [], some none⟩ true (some [])
          (some "/employees/search/".toList) true)).trace →
      (outstanding p).length ≤ 1 :=
  ⟨rfl, (one_outstanding_request ⟨some [], some [], some none⟩ true (some [])
    (some "/employees/search/".toList) true rfl ["a".toList, "ab".toList, "abc".toList]).1⟩
/-! ## Debouncing -/

theorem performSearch_timer_frame (q : JsString) (s : SearchState) :
    (performSearch q s).pending = s.pending ∧
    (performSearch q s).debounceTimer = s.debounceTimer ∧
    (performSearch q s).nextTimer = s.nextTimer ∧
    (performSearch q s).listening = s.listening ∧
    (performSearch q s).searchInput = s.searchInput ∧
    (performSearch q s).calls = s.calls ∧
    (performSearch q s).now = s.now := by
  by_cases he : truthyStr s.endpoint = true
  · obtain ⟨-, -, -, h1, h2, h3, h4, h5, h6, h7, -⟩ := performSearch_fields q s he
    exact ⟨h1, h2, h3, h4, h5, h6, h7⟩
  · rw [performSearch_no_endpoint q s (by simpa using he)]
    exact ⟨rfl, rfl, rfl, rfl, rfl, rfl, rfl⟩

theorem timerCallback_frame (q : JsString) (s : SearchState) :
    (timerCallback q s).pending = s.pending ∧
    (timerCallback q s).debounceTimer = s.debounceTimer ∧
    (timerCallback q s).nextTimer = s.nextTimer ∧
    (timerCallback q s).listening = s.listening ∧
    (timerCallback q s).searchInput = s.searchInput ∧
    (timerCallback q s).calls = s.calls ++ [q] ∧
    (timerCallback q s).now = s.now := by
  obtain ⟨h1, h2, h3, h4, h5, h6, h7⟩ :=
    performSearch_timer_frame q { s with calls := s.calls ++ [q] }
  exact ⟨h1, h2, h3, h4, h5, h6, h7⟩

theorem runTimers_fire (t : Nat) (s : SearchState) (tm : Timer) (hp : s.pending = [tm])
    (hd : tm.due ≤ t) :
    runTimers t s = timerCallback tm.query { s with pending := [], now := max s.now t } := by
  unfold runTimers
  simp [hp, hd]

theorem runTimers_keep (t : Nat) (s : SearchState) (tm : Timer) (hp : s.pending = [tm])
    (hd : ¬ tm.due ≤ t) :
    runTimers t s = { s with now := max s.now t } := by
  unfold runTimers
  simp [hp, hd]
  omega

theorem handleSearchInput_fields (s : SearchState) (v : JsString)
    (hin : s.searchInput = some v)
    (hp : s.pending = [] ∨ ∃ tm, s.pending = [tm] ∧ s.debounceTimer = some tm.id ∧ tm.id ≠ 0) :
    (handleSearchInput s).pending = [{ id := s.nextTimer, due := s.now + 120, query := trim v }] ∧
    (handleSearchInput s).debounceTimer = some s.nextTimer ∧
    (handleSearchInput s).nextTimer = s.nextTimer + 1 ∧
    (handleSearchInput s).listening = s.listening ∧
    (handleSearchInput s).searchInput = s.searchInput ∧
    (handleSearchInput s).calls = s.calls ∧
    (handleSearchInput s).now = s.now := by
  rcases hp with hp | ⟨tm, hp, hdt, hne⟩
  · unfold handleSearchInput clearTimeout
    rcases hdt : s.debounceTimer with _ | t
    · simp [hin, hp]
    · by_cases h0 : t = 0 <;> simp [hin, hp, h0]
  · unfold handleSearchInput clearTimeout
    simp [hin, hp, hdt, hne]

theorem runTimers_fire_fields (t : Nat) (s : SearchState) (tm : Timer) (hp : s.pending = [tm])
    (hd : tm.due ≤ t) :
    (runTimers t s).pending = [] ∧
    (runTimers t s).debounceTimer = s.debounceTimer ∧
    (runTimers t s).nextTimer = s.nextTimer ∧
    (runTimers t s).listening = s.listening ∧
    (runTimers t s).searchInput = s.searchInput ∧
    (runTimers t s).calls = s.calls ++ [tm.query] ∧
    (runTimers t s).now = max s.now t := by
  rw [runTimers_fire t s tm hp hd]
  exact timerCallback_frame tm.query { s with pending := [], now := max s.now t }

theorem step_input_listening (s : SearchState) (t : Nat) (v : JsString)
    (hl : (runTimers t s).listening = true) :
    step s (.input t v) = handleSearchInput
      { runTimers t s with searchInput := (runTimers t s).searchInput.map (fun _ => v) } := by
  simp only [step, hl, if_true]

theorem handleSearchInput_arms (r : SearchState) (v : JsString) (hl : r.listening = true)
    (hv : ∃ v0, r.searchInput = some v0) (hn : r.nextTimer ≠ 0)
    (hp : r.pending = [] ∨ ∃ tm, r.pending = [tm] ∧ r.debounceTimer = some tm.id ∧ tm.id ≠ 0) :
    Armed (handleSearchInput { r with searchInput := r.searchInput.map (fun _ => v) }) (trim v) ∧
    (handleSearchInput { r with searchInput := r.searchInput.map (fun _ => v) }).calls = r.calls ∧
    (handleSearchInput { r with searchInput := r.searchInput.map (fun _ => v) }).now = r.now := by
  obtain ⟨v0, hv0⟩ := hv
  have hin : ({ r with searchInput := r.searchInput.map (fun _ => v) } : SearchState).searchInput
      = some v := by
    simp [hv0]
  obtain ⟨f1, f2, f3, f4, f5, f6, f7⟩ := handleSearchInput_fields
    { r with searchInput := r.searchInput.map (fun _ => v) } v hin hp
  refine ⟨⟨f4.trans hl, ⟨v, f5.trans hin⟩, by rw [f3]; simp, _, f1, by rw [f7], rfl, f2, hn⟩,
    f6, f7⟩

theorem step_input_quiet (s : SearchState) (t : Nat) (v : JsString) (h : Quiet s)
    (ht : s.now ≤ t) :
    Armed (step s (.input t v)) (trim v) ∧ (step s (.input t v)).calls = s.calls
      ∧ (step s (.input t v)).now = t := by
  obtain ⟨hl, hv, hn, hp⟩ := h
  have hr := runTimers_no_pending t s hp
  have e1 : (runTimers t s).listening = true := by rw [hr]; exact hl
  have e2 : (runTimers t s).searchInput = s.searchInput := by rw [hr]
  have e3 : (runTimers t s).nextTimer = s.nextTimer := by rw [hr]
  have e4 : (runTimers t s).pending = [] := by rw [hr]; exact hp
  have e5 : (runTimers t s).calls = s.calls := by rw [hr]
  have e6 : (runTimers t s).now = max s.now t := by rw [hr]
  rw [step_input_listening s t v e1]
  obtain ⟨a, b, c⟩ := handleSearchInput_arms (runTimers t s) v e1 (by rw [e2]; exact hv)
    (by rw [e3]; exact hn) (Or.inl e4)
  exact ⟨a, b.trans e5, c.trans (e6.trans (max_eq_right ht))⟩

theorem step_input_armed_late (s : SearchState) (q : JsString) (t : Nat) (v : JsString)
    (h : Armed s q) (ht : s.now + 120 ≤ t) :
    Armed (step s (.input t v)) (trim v) ∧ (step s (.input t v)).calls = s.calls ++ [q]
      ∧ (step s (.input t v)).now = t := by
  obtain ⟨hl, hv, hn, tm, hp, hdue, hq, hdt, hid⟩ := h
  obtain ⟨e4, -, e3, e1, e2, e5, e6⟩ := runTimers_fire_fields t s tm hp (by omega)
  rw [step_input_listening s t v (e1.trans hl)]
  obtain ⟨a, b, c⟩ := handleSearchInput_arms (runTimers t s) v (e1.trans hl)
    (by rw [e2]; exact hv) (by rw [e3]; exact hn) (Or.inl e4)
  exact ⟨a, b.trans (by rw [e5, hq]), c.trans (e6.trans (max_eq_right (by omega)))⟩

theorem step_input_armed_early (s : SearchState) (q : JsString) (t : Nat) (v : JsString)
    (h : Armed s q) (ht0 : s.now ≤ t) (ht : t < s.now + 120) :
    Armed (step s (.input t v)) (trim v) ∧ (step s (.input t v)).calls = s.calls
      ∧ (step s (.input t v)).now = t := by
  obtain ⟨hl, hv, hn, tm, hp, hdue, hq, hdt, hid⟩ := h
  have hr := runTimers_keep t s tm hp (by omega)
  have e1 : (runTimers t s).listening = true := by rw [hr]; exact hl
  have e2 : (runTimers t s).searchInput = s.searchInput := by rw [hr]
  have e3 : (runTimers t s).nextTimer = s.nextTimer := by rw [hr]
  have e4 : (runTimers t s).pending = [tm] := by rw [hr]; exact hp
  have e5 : (runTimers t s).calls = s.calls := by rw [hr]
  have e6 : (runTimers t s).now = max s.now t := by rw [hr]
  have e7 : (runTimers t s).debounceTimer = some tm.id := by rw [hr]; exact hdt
  rw [step_input_listening s t v e1]
  obtain ⟨a, b, c⟩ := handleSearchInput_arms (runTimers t s) v e1 (by rw [e2]; exact hv)
    (by rw [e3]; exact hn) (Or.inr ⟨tm, e4, e7, hid⟩)
  exact ⟨a, b.trans e5, c.trans (e6.trans (max_eq_right ht0))⟩

theorem step_idle_armed (s : SearchState) (q : JsString) (t : Nat) (h : Armed s q)
    (ht : s.now + 120 ≤ t) : (step s (.idle t)).calls = s.calls ++ [q] := by
  obtain ⟨hl, hv, hn, tm, hp, hdue, hq, hdt, hid⟩ := h
  have := (runTimers_fire_fields t s tm hp (by omega)).2.2.2.2.2.1
  rw [hq] at this
  exact this

theorem step_idle_quiet (s : SearchState) (t : Nat) (h : Quiet s) :
    (step s (.idle t)).calls = s.calls := by
  simp only [step, runTimers_no_pending t s h.2.2.2]

theorem run_cons (e : PageEvent) (es : List PageEvent) (s : SearchState) :
    run (e :: es) s = run es (step s e) := rfl

theorem run_armed (evs : List (Nat × JsString)) (s : SearchState) (q : JsString) (T : Nat)
    (h : Armed s q) (hs : evs.Pairwise (fun a b => a.1 ≤ b.1))
    (hnow : ∀ e ∈ evs, s.now ≤ e.1) (hT : s.now + 120 ≤ T) (hT2 : ∀ e ∈ evs, e.1 + 120 ≤ T) :
    (run (inputEvents evs ++ [.idle T]) s).calls
      = s.calls ++ (if evs.all (fun e => s.now + 120 ≤ e.1) then [q] else [])
        ++ debouncedSearches evs := by
  induction evs generalizing s q with
  | nil =>
    simp only [inputEvents, List.map_nil, List.nil_append, List.all_nil, if_true,
      debouncedSearches, List.append_nil]
    exact step_idle_armed s q T h hT
  | cons e rest ih =>
    obtain ⟨t, v⟩ := e
    have hle : ∀ b ∈ rest, t ≤ b.1 := (List.pairwise_cons.mp hs).1
    have hs2 := (List.pairwise_cons.mp hs).2
    have ht0 : s.now ≤ t := hnow (t, v) (List.mem_cons_self _ _)
    have htT : t + 120 ≤ T := hT2 (t, v) (List.mem_cons_self _ _)
    have hT3 : ∀ b ∈ rest, b.1 + 120 ≤ T := fun b hb => hT2 b (List.mem_cons_of_mem _ hb)
    simp only [inputEvents, List.map_cons, List.cons_append, run_cons]
    by_cases hlate : s.now + 120 ≤ t
    · obtain ⟨a, b, c⟩ := step_input_armed_late s q t v h hlate
      have := ih (step s (.input t v)) (trim v) a hs2 (by rw [c]; exact hle) (by rw [c]; exact htT)
        hT3
      simp only [inputEvents] at this
      rw [this, b, c]
      have hall : ((t, v) :: rest).all (fun e => decide (s.now + 120 ≤ e.1)) = true := by
        rw [List.all_eq_true]
        intro x hx
        rcases List.mem_cons.mp hx with hx | hx
        · subst hx; simpa using hlate
        · have := hle x hx
          simp only [decide_eq_true_eq]
          omega
      rw [hall]
      simp [debouncedSearches]
    · obtain ⟨a, b, c⟩ := step_input_armed_early s q t v h ht0 (by omega)
      have := ih (step s (.input t v)) (trim v) a hs2 (by rw [c]; exact hle) (by rw [c]; exact htT)
        hT3
      simp only [inputEvents] at this
      rw [this, b, c]
      have hall : ((t, v) :: rest).all (fun e => decide (s.now + 120 ≤ e.1)) = false := by
        simp [hlate]
      rw [hall]
      simp [debouncedSearches]

theorem run_quiet (evs : List (Nat × JsString)) (s : SearchState) (T : Nat)
    (h : Quiet s) (hs : evs.Pairwise (fun a b => a.1 ≤ b.1))
    (hnow : ∀ e ∈ evs, s.now ≤ e.1) (hT2 : ∀ e ∈ evs, e.1 + 120 ≤ T) :
    (run (inputEvents evs ++ [.idle T]) s).calls = s.calls ++ debouncedSearches evs := by
  rcases evs with _ | ⟨⟨t, v⟩, rest⟩
  · simp only [inputEvents, List.map_nil, List.nil_append, debouncedSearches, List.append_nil]
    exact step_idle_quiet s T h
  · have hle : ∀ b ∈ rest, t ≤ b.1 := (List.pairwise_cons.mp hs).1
    obtain ⟨a, b, c⟩ := step_input_quiet s t v h (hnow (t, v) (List.mem_cons_self _ _))
    have := run_armed rest (step s (.input t v)) (trim v) T a (List.pairwise_cons.mp hs).2
      (by rw [c]; exact hle) (by rw [c]; exact hT2 (t, v) (List.mem_cons_self _ _))
      (fun b hb => hT2 b (List.mem_cons_of_mem _ hb))
    simp only [inputEvents] at this
    simp only [inputEvents, List.map_cons, List.cons_append, run_cons]
    rw [this, b, c]
    simp [debouncedSearches]

theorem debouncedSearches_burst (evs : List (Nat × JsString)) (hne : evs ≠ [])
    (hb : evs.Chain' (fun a b => b.1 < a.1 + 120)) :
    debouncedSearches evs = [trim (evs.getLast hne).2] := by
  induction evs with
  | nil => exact absurd rfl hne
  | cons e rest ih =>
    obtain ⟨t, v⟩ := e
    rcases rest with _ | ⟨e2, rest2⟩
    · simp [debouncedSearches]
    · have h1 : e2.1 < t + 120 := (List.chain'_cons.mp hb).1
      have h2 := (List.chain'_cons.mp hb).2
      have := ih (by simp) h2
      rw [List.getLast_cons (by simp)]
      rw [← this]
      have hall : (e2 :: rest2).all (fun e => decide (t + 120 ≤ e.1)) = false := by
        simp only [List.all_cons, Bool.and_eq_false_imp, decide_eq_true_eq]
        intro h3
        omega
      simp only [debouncedSearches] at hall ⊢
      rw [hall]
      simp

/-- C9: on a page whose search box is wired (table body, search box and
endpoint present), for every sequence of input events in time order, the
queries with which the debounce callback calls `performSearch`, once the
timers have run out, are exactly the trimmed values of the events that no
later event follows within 120 ms, in order; a burst of events each less than
120 ms after the one before yields one search, for the last event. -/
theorem debounce_searches (dom : SearchDom) (tb value0 : JsString) (endpoint : Option JsString)
    (parses : Bool) (evs : List (Nat × JsString)) (T : Nat)
    (hdom : dom.tableBody = some tb) (he : truthyStr endpoint = true)
    (hs : evs.Pairwise (fun a b => a.1 ≤ b.1)) (hT : ∀ e ∈ evs, e.1 + 120 ≤ T) :
    (run (.domContentLoaded :: inputEvents evs ++ [.idle T])
        (initialState dom true (some value0) endpoint parses)).calls = debouncedSearches evs ∧
    (∀ hne : evs ≠ [], evs.Chain' (fun a b => b.1 < a.1 + 120) →
      (run (.domContentLoaded :: inputEvents evs ++ [.idle T])
        (initialState dom true (some value0) endpoint parses)).calls = [trim (evs.getLast hne).2]) := by
  have hstep : step (initialState dom true (some value0) endpoint parses) .domContentLoaded
      = { initialState dom true (some value0) endpoint parses with listening := true } := by
    simp [step, initSearch, initialState, hdom, he]
  have hq : Quiet (step (initialState dom true (some value0) endpoint parses) .domContentLoaded) := by
    rw [hstep]
    exact ⟨rfl, ⟨value0, rfl⟩, Nat.succ_ne_zero 0, rfl⟩
  have hnow : (step (initialState dom true (some value0) endpoint parses) .domContentLoaded).now = 0 := by
    rw [hstep]; rfl
  have hcalls : (step (initialState dom true (some value0) endpoint parses) .domContentLoaded).calls
      = [] := by
    rw [hstep]; rfl
  have main := run_quiet evs _ T hq hs (by intro e _; rw [hnow]; exact Nat.zero_le _) hT
  rw [hcalls, List.nil_append] at main
  refine ⟨main, fun hne hb => ?_⟩
  rw [← debouncedSearches_burst evs hne hb]
  exact main

/-- Witness for C9: three keystrokes 50 ms apart, then one a second later. -/
theorem debounce_searches_witness :
    (run (.domContentLoaded
          :: inputEvents [(0, "a".toList), (50, "an".toList), (100, " ann ".toList),
              (1100, "bob".toList)]
          ++ [.idle 2000])
        (initialState ⟨some [], some [], some none⟩ true (some [])
          (some "/employees/search/".toList) true)).calls
      = ["ann".toList, "bob".toList] :=
  ((debounce_searches ⟨some [], some [], some none⟩ [] [] (some "/employees/search/".toList) true
    [(0, "a".toList), (50, "an".toList), (100, " ann ".toList), (1100, "bob".toList)] 2000
    rfl rfl (by decide) (by decide)).1).trans (by decide)
/-! ## Theme -/

theorem getItem_setItem (key value : JsString) (storage : List (JsString × JsString)) :
    getItem key (setItem key value storage) = some value := by
  simp [getItem, setItem, List.lookup]

theorem getTheme_setTheme (theme : JsString) (p : ThemePage) :
    getTheme (setTheme theme p) = some theme :=
  getItem_setItem STORAGE_KEY theme p.storage

theorem init_stored (q : ThemePage) (t : JsString) (ht : t ≠ []) (h : getTheme q = some t) :
    (init q).dataTheme = some t ∧ getTheme (init q) = some t := by
  rcases t with _ | ⟨c, cs⟩
  · exact absurd rfl ht
  · unfold init
    rw [h]
    simp only
    split_ifs
    · exact ⟨rfl, getTheme_setTheme _ _⟩
    · exact ⟨rfl, getTheme_setTheme _ _⟩

theorem init_not_stored (q : ThemePage) (h : getTheme q = none ∨ getTheme q = some []) :
    (init q).dataTheme = q.dataTheme ∧ (init q).storage = q.storage := by
  unfold init
  rcases h with h | h <;> rw [h] <;> simp only <;> split_ifs <;> exact ⟨rfl, rfl⟩

/-- C6: for a non-empty theme value `t`, a click on the toggle whose target
carries `t` leaves `t` stored under `erms-theme` and as the `data-theme`
attribute of the document; a later page load with `t` stored sets the
attribute to `t` again, whatever the server rendered, and leaves `t` stored;
an empty or absent theme value changes neither. -/
theorem theme_persists (p : ThemePage) (t : JsString) (serverTheme : Option JsString)
    (ht : t ≠ []) (hl : p.clickListener = true) :
    getItem "erms-theme".toList (click (some t) p).storage = some t ∧
    (click (some t) p).dataTheme = some t ∧
    (init (reload serverTheme (click (some t) p))).dataTheme = some t ∧
    getItem "erms-theme".toList (init (reload serverTheme (click (some t) p))).storage = some t ∧
    (∀ q : ThemePage, getItem "erms-theme".toList q.storage = some t →
      (init q).dataTheme = some t ∧ getItem "erms-theme".toList (init q).storage = some t) ∧
    click (some []) p = p ∧ click none p = p ∧
    (∀ q : ThemePage, getItem "erms-theme".toList q.storage = none
        ∨ getItem "erms-theme".toList q.storage = some [] →
      (init q).dataTheme = q.dataTheme ∧ (init q).storage = q.storage) := by
  have hc : click (some t) p = setTheme t p := by
    rcases t with _ | ⟨c, cs⟩
    · exact absurd rfl ht
    · simp only [click, hl, if_true]
  have hg : getTheme (reload serverTheme (click (some t) p)) = some t := by
    rw [hc]
    exact getTheme_setTheme t p
  refine ⟨?_, ?_, (init_stored _ t ht hg).1, (init_stored _ t ht hg).2,
    fun q hq => init_stored q t ht hq, ?_, ?_, fun q hq => init_not_stored q hq⟩
  · rw [hc]; exact getTheme_setTheme t p
  · rw [hc]; rfl
  · simp only [click, hl, if_true]
  · simp only [click, hl, if_true]

/-- Witness for C6: switching a light page to dark and loading it again. -/
theorem theme_persists_witness :
    (init (reload (some "light".toList)
      (click (some "dark".toList)
        (init ⟨some "light".toList, [], true, false, []⟩)))).dataTheme = some "dark".toList :=
  (theme_persists (init ⟨some "light".toList, [], true, false, []⟩) "dark".toList
    (some "light".toList) (by decide) rfl).2.2.1

/-- C7 fails on the code: `setTheme` writes the attribute and the storage
entry and nothing else, so no click and no page load dispatches
`erms:theme-change` (or any other event) on the document. -/
theorem setTheme_dispatches_nothing (theme : JsString) (target : Option JsString)
    (p : ThemePage) :
    (setTheme theme p).dispatched = p.dispatched ∧
    (click target p).dispatched = p.dispatched ∧
    (init p).dispatched = p.dispatched ∧
    (click (some "dark".toList) (init ⟨some "light".toList, [], true, false, []⟩)).dispatched
      = [] := by
  refine ⟨rfl, ?_, ?_, by decide⟩
  · unfold click
    split_ifs
    · rcases target with _ | ⟨_ | ⟨c, cs⟩⟩ <;> rfl
    · rfl
  · unfold init
    rcases getTheme p with _ | ⟨_ | ⟨c, cs⟩⟩ <;> simp only <;> split_ifs <;> rfl
/-! ## Charts -/

theorem getChart_some (t : ChartTarget) (p : ChartPage) (x : ChartInstance)
    (h : getChart t p = some x) : x ∈ p.live ∧ x.canvas = t := by
  unfold getChart at h
  exact ⟨List.mem_of_find?_eq_some h, by simpa using List.find?_some h⟩

theorem getChart_none (t : ChartTarget) (p : ChartPage) (h : getChart t p = none) :
    chartsOn t p = 0 := by
  unfold getChart at h
  unfold chartsOn
  rw [List.length_eq_zero, List.filter_eq_nil_iff]
  intro y hy
  have := List.find?_eq_none.mp h y hy
  simpa using this

theorem chartsOn_newChart (t c : ChartTarget) (cfg : ChartConfig) (p : ChartPage) :
    chartsOn t (newChart c cfg p) = chartsOn t p + (if c = t then 1 else 0) := by
  unfold chartsOn newChart
  by_cases h : c = t <;> simp [List.filter_append, List.filter_cons, h]

theorem RegistryOk_newChart (c : ChartTarget) (cfg : ChartConfig) (p : ChartPage)
    (h : RegistryOk p) : RegistryOk (newChart c cfg p) := by
  obtain ⟨h1, h2⟩ := h
  constructor
  · intro x hx y hy hxy
    simp only [newChart, List.mem_append, List.mem_singleton] at hx hy
    rcases hx with hx | hx <;> rcases hy with hy | hy
    · exact h1 x hx y hy hxy
    · have := h2 x hx
      rw [hy] at hxy
      simp only at hxy
      omega
    · have := h2 y hy
      rw [hx] at hxy
      simp only at hxy
      omega
    · rw [hx, hy]
  · intro x hx
    simp only [newChart, List.mem_append, List.mem_singleton] at hx ⊢
    rcases hx with hx | hx
    · exact Nat.lt_succ_of_lt (h2 x hx)
    · rw [hx]; exact Nat.lt_succ_self _

theorem RegistryOk_destroy (x : ChartInstance) (p : ChartPage) (h : RegistryOk p) :
    RegistryOk (destroy x p) := by
  obtain ⟨h1, h2⟩ := h
  constructor
  · intro a ha b hb hab
    exact h1 a (List.mem_of_mem_filter ha) b (List.mem_of_mem_filter hb) hab
  · intro a ha
    exact h2 a (List.mem_of_mem_filter ha)

theorem chartsOn_destroy_same (t : ChartTarget) (p : ChartPage) (x : ChartInstance)
    (hx : getChart t p = some x) (hle : chartsOn t p ≤ 1) : chartsOn t (destroy x p) = 0 := by
  obtain ⟨hmem, hcan⟩ := getChart_some t p x hx
  unfold chartsOn destroy
  rw [List.length_eq_zero, List.filter_eq_nil_iff]
  intro y hy hyc
  have hyl : y ∈ p.live := List.mem_of_mem_filter hy
  have hyid : y.id ≠ x.id := by simpa using (List.mem_filter.mp hy).2
  have hxf : x ∈ p.live.filter (fun c => c.canvas = t) :=
    List.mem_filter.mpr ⟨hmem, by simpa using hcan⟩
  have hyf : y ∈ p.live.filter (fun c => c.canvas = t) :=
    List.mem_filter.mpr ⟨hyl, hyc⟩
  unfold chartsOn at hle
  rcases hl : p.live.filter (fun c => c.canvas = t) with _ | ⟨z, _ | ⟨w, ws⟩⟩
  · rw [hl] at hxf; cases hxf
  · rw [hl] at hxf hyf
    simp only [List.mem_singleton] at hxf hyf
    exact hyid (by rw [hxf, hyf])
  · rw [hl] at hle
    simp at hle

theorem filter_destroy_other (t t' : ChartTarget) (p : ChartPage) (x : ChartInstance)
    (hok : RegistryOk p) (hx : getChart t p = some x) (hne : t' ≠ t) :
    (destroy x p).live.filter (fun c => c.canvas = t')
      = p.live.filter (fun c => c.canvas = t') := by
  obtain ⟨hmem, hcan⟩ := getChart_some t p x hx
  unfold destroy
  simp only
  rw [List.filter_filter]
  apply List.filter_congr
  intro y hy
  by_cases hyc : y.canvas = t'
  · have hid : y.id ≠ x.id := by
      intro e
      have := hok.1 y hy x hmem e
      rw [this, hcan] at hyc
      exact hne hyc.symm
    simp [hyc, hid]
  · simp [hyc]

theorem filter_newChart (t c : ChartTarget) (cfg : ChartConfig) (p : ChartPage) :
    (newChart c cfg p).live.filter (fun x => x.canvas = t)
      = p.live.filter (fun x => x.canvas = t)
        ++ (if c = t then [{ id := p.nextChart, canvas := c, config := cfg }] else []) := by
  unfold newChart
  by_cases h : c = t <;> simp [List.filter_append, List.filter_cons, h]

theorem renderChart_spec (t : ChartTarget) (cfg : ChartConfig) (p : ChartPage)
    (hok : RegistryOk p) (hle : chartsOn t p ≤ 1) :
    RegistryOk (renderChart t cfg p) ∧ (renderChart t cfg p).canvas = p.canvas ∧
    (renderChart t cfg p).island = p.island ∧
    (renderChart t cfg p).chartLibrary = p.chartLibrary ∧
    (renderChart t cfg p).nextChart = p.nextChart + 1 ∧
    (renderChart t cfg p).live.filter (fun c => c.canvas = t)
      = [{ id := p.nextChart, canvas := t, config := cfg }] ∧
    ∀ t', t' ≠ t → (renderChart t cfg p).live.filter (fun c => c.canvas = t')
      = p.live.filter (fun c => c.canvas = t') := by
  unfold renderChart
  rcases hg : getChart t p with _ | x
  · simp only
    refine ⟨RegistryOk_newChart t cfg p hok, rfl, rfl, rfl, rfl, ?_, ?_⟩
    · have h0 := getChart_none t p hg
      unfold chartsOn at h0
      rw [filter_newChart, List.length_eq_zero.mp h0]
      simp
    · intro t' hne
      rw [filter_newChart, if_neg (fun e => hne e.symm), List.append_nil]
  · simp only
    refine ⟨RegistryOk_newChart t cfg _ (RegistryOk_destroy x p hok), rfl, rfl, rfl, rfl, ?_, ?_⟩
    · have h0 := chartsOn_destroy_same t p x hg hle
      unfold chartsOn at h0
      rw [filter_newChart, List.length_eq_zero.mp h0]
      simp [destroy]
    · intro t' hne
      rw [filter_newChart, if_neg (fun e => hne e.symm), List.append_nil,
        filter_destroy_other t t' p x hok hg hne]

theorem drawIfPresent_spec (t : ChartTarget) (type : JsString)
    (data : Option (List JsString × List Int)) (p : ChartPage)
    (hok : RegistryOk p) (hle : chartsOn t p ≤ 1) :
    RegistryOk (drawIfPresent t type data p) ∧ (drawIfPresent t type data p).canvas = p.canvas ∧
    (drawIfPresent t type data p).island = p.island ∧
    (drawIfPresent t type data p).chartLibrary = p.chartLibrary ∧
    p.nextChart ≤ (drawIfPresent t type data p).nextChart ∧
    (∀ labels values, p.canvas t = true → data = some (labels, values) →
      (drawIfPresent t type data p).live.filter (fun c => c.canvas = t)
        = [{ id := p.nextChart, canvas := t,
             config := { type := type, labels := labels, values := values } }]) ∧
    (¬ (p.canvas t = true ∧ data.isSome = true) →
      (drawIfPresent t type data p).live.filter (fun c => c.canvas = t)
        = p.live.filter (fun c => c.canvas = t)) ∧
    ∀ t', t' ≠ t → (drawIfPresent t type data p).live.filter (fun c => c.canvas = t')
      = p.live.filter (fun c => c.canvas = t') := by
  rcases hc : p.canvas t with _ | _
  · have hd : drawIfPresent t type data p = p := by simp [drawIfPresent, hc]
    rw [hd]
    exact ⟨hok, rfl, rfl, rfl, le_refl _, (fun _ _ h _ => by cases h), fun _ => rfl,
      fun _ _ => rfl⟩
  · rcases data with _ | ⟨labels, values⟩
    · have hd : drawIfPresent t type none p = p := by simp [drawIfPresent, hc]
      rw [hd]
      exact ⟨hok, rfl, rfl, rfl, le_refl _, (fun _ _ _ h => by cases h), fun _ => rfl,
        fun _ _ => rfl⟩
    · have hd : drawIfPresent t type (some (labels, values)) p
          = renderChart t { type := type, labels := labels, values := values } p := by
        simp [drawIfPresent, hc]
      rw [hd]
      obtain ⟨a, b, c, d, e, f, g⟩ := renderChart_spec t
        { type := type, labels := labels, values := values } p hok hle
      refine ⟨a, b, c, d, by rw [e]; exact Nat.le_succ _, ?_, ?_, g⟩
      · intro l v _ hlv
        simp only [Option.some.injEq, Prod.mk.injEq] at hlv
        obtain ⟨rfl, rfl⟩ := hlv
        exact f
      · intro hn
        exact absurd ⟨rfl, rfl⟩ hn

theorem parseIsland_wellFormed (i : Option IslandJson)
    (h : i = none ∨ ∃ l v, i = some (.data l v)) :
    ∃ d, parseIsland i = some d ∧ d.isSome = i.isSome ∧
      ∀ l v, i = some (.data l v) → d = some (l, v) := by
  rcases h with h | ⟨l, v, h⟩
  · subst h; exact ⟨none, rfl, rfl, fun _ _ h => by cases h⟩
  · subst h
    refine ⟨some (l, v), rfl, rfl, ?_⟩
    intro l2 v2 h2
    simp only [Option.some.injEq, IslandJson.data.injEq] at h2
    rw [h2.1, h2.2]

theorem chartsOn_congr (t : ChartTarget) (p q : ChartPage)
    (h : q.live.filter (fun c => c.canvas = t) = p.live.filter (fun c => c.canvas = t)) :
    chartsOn t q = chartsOn t p := by
  unfold chartsOn
  rw [h]

theorem initCharts_spec (p : ChartPage) (hlib : p.chartLibrary = true)
    (hwf : ∀ t, p.island t = none ∨ ∃ l v, p.island t = some (.data l v))
    (hok : RegistryOk p) (hle : ∀ t, chartsOn t p ≤ 1) :
    ∃ p', initCharts p = some p' ∧ RegistryOk p' ∧ p'.canvas = p.canvas ∧ p'.island = p.island ∧
      p'.chartLibrary = p.chartLibrary ∧
      (∀ t labels values, p.canvas t = true → p.island t = some (.data labels values) →
        ∃ c, p'.live.filter (fun x => x.canvas = t) = [c] ∧ p.nextChart ≤ c.id ∧
          c.config = { type := chartType t, labels := labels, values := values }) ∧
      (∀ t, ¬ (p.canvas t = true ∧ (p.island t).isSome = true) →
        p'.live.filter (fun x => x.canvas = t) = p.live.filter (fun x => x.canvas = t)) := by
  obtain ⟨d1, e1, s1, w1⟩ := parseIsland_wellFormed _ (hwf .department)
  obtain ⟨d2, e2, s2, w2⟩ := parseIsland_wellFormed _ (hwf .status)
  obtain ⟨d3, e3, s3, w3⟩ := parseIsland_wellFormed _ (hwf .salary)
  obtain ⟨d4, e4, s4, w4⟩ := parseIsland_wellFormed _ (hwf .tenure)
  have hrun : initCharts p = some (drawIfPresent .tenure "bar".toList d4
      (drawIfPresent .salary "bar".toList d3
        (drawIfPresent .status "bar".toList d2
          (drawIfPresent .department "doughnut".toList d1 p)))) := by
    simp [initCharts, hlib, e1, e2, e3, e4]
  obtain ⟨a1, b1, c1, l1, n1, f1, g1, o1⟩ :=
    drawIfPresent_spec .department "doughnut".toList d1 p hok (hle _)
  obtain ⟨a2, b2, c2, l2, n2, f2, g2, o2⟩ :=
    drawIfPresent_spec .status "bar".toList d2 _ a1
      (by rw [chartsOn_congr _ _ _ (o1 .status (by decide))]; exact hle _)
  obtain ⟨a3, b3, c3, l3, n3, f3, g3, o3⟩ :=
    drawIfPresent_spec .salary "bar".toList d3 _ a2
      (by rw [chartsOn_congr _ _ _ (o2 .salary (by decide)),
            chartsOn_congr _ _ _ (o1 .salary (by decide))]; exact hle _)
  obtain ⟨a4, b4, c4, l4, n4, f4, g4, o4⟩ :=
    drawIfPresent_spec .tenure "bar".toList d4 _ a3
      (by rw [chartsOn_congr _ _ _ (o3 .tenure (by decide)),
            chartsOn_congr _ _ _ (o2 .tenure (by decide)),
            chartsOn_congr _ _ _ (o1 .tenure (by decide))]; exact hle _)
  refine ⟨_, hrun, a4, by rw [b4, b3, b2, b1], by rw [c4, c3, c2, c1], by rw [l4, l3, l2, l1],
    ?_, ?_⟩
  · intro t labels values hc hi
    cases t
    · refine ⟨_, by
        rw [o4 .department (by decide), o3 .department (by decide), o2 .department (by decide)]
        exact f1 labels values hc (w1 labels values hi), ?_, ?_⟩
      · exact le_refl _
      · rfl
    · refine ⟨_, by
        rw [o4 .status (by decide), o3 .status (by decide)]
        exact f2 labels values (by rw [b1]; exact hc) (w2 labels values hi), ?_, ?_⟩
      · exact n1
      · rfl
    · refine ⟨_, by
        rw [o4 .salary (by decide)]
        exact f3 labels values (by rw [b2, b1]; exact hc) (w3 labels values hi), ?_, ?_⟩
      · exact le_trans n1 n2
      · rfl
    · refine ⟨_, by
        exact f4 labels values (by rw [b3, b2, b1]; exact hc) (w4 labels values hi), ?_, ?_⟩
      · exact le_trans n1 (le_trans n2 n3)
      · rfl
  · intro t hn
    cases t
    · rw [o4 .department (by decide), o3 .department (by decide), o2 .department (by decide)]
      exact g1 (by rw [s1]; exact hn)
    · rw [o4 .status (by decide), o3 .status (by decide),
        g2 (by rw [b1, s2]; exact hn), o1 .status (by decide)]
    · rw [o4 .salary (by decide), g3 (by rw [b2, b1, s3]; exact hn), o2 .salary (by decide),
        o1 .salary (by decide)]
    · rw [g4 (by rw [b3, b2, b1, s4]; exact hn), o3 .tenure (by decide),
        o2 .tenure (by decide), o1 .tenure (by decide)]

theorem island_data_of_isSome (p : ChartPage) (t : ChartTarget)
    (hwf : ∀ t, p.island t = none ∨ ∃ l v, p.island t = some (.data l v))
    (h : (p.island t).isSome = true) : ∃ l v, p.island t = some (.data l v) := by
  rcases hwf t with h0 | h1
  · rw [h0] at h; cases h
  · exact h1

theorem initChartsTimes_reach (p : ChartPage) (hlib : p.chartLibrary = true)
    (hfresh : p.live = [])
    (hwf : ∀ t, p.island t = none ∨ ∃ l v, p.island t = some (.data l v)) (k : Nat) :
    ∃ pk, initChartsTimes k p = some pk ∧ RegistryOk pk ∧ pk.canvas = p.canvas ∧
      pk.island = p.island ∧ pk.chartLibrary = p.chartLibrary ∧
      (∀ t, chartsOn t pk ≤ 1) ∧
      (∀ t, ¬ (p.canvas t = true ∧ (p.island t).isSome = true) → chartsOn t pk = 0) ∧
      (1 ≤ k → ∀ t, p.canvas t = true ∧ (p.island t).isSome = true → chartsOn t pk = 1) := by
  induction k with
  | zero =>
    refine ⟨p, rfl, ⟨?_, ?_⟩, rfl, rfl, rfl, ?_, ?_, ?_⟩
    · intro x hx; rw [hfresh] at hx; cases hx
    · intro x hx; rw [hfresh] at hx; cases hx
    · intro t; simp [chartsOn, hfresh]
    · intro t _; simp [chartsOn, hfresh]
    · intro h; omega
  | succ k ih =>
    obtain ⟨pk, h1, h2, h3, h4, h5, h6, h7, -⟩ := ih
    obtain ⟨p', g1, g2, g3, g4, g5, g6, g7⟩ := initCharts_spec pk (by rw [h5]; exact hlib)
      (by rw [h4]; exact hwf) h2 h6
    have hdrawn : ∀ t, p.canvas t = true ∧ (p.island t).isSome = true → chartsOn t p' = 1 := by
      intro t ⟨hc, hi⟩
      obtain ⟨l, v, hlv⟩ := island_data_of_isSome p t hwf hi
      obtain ⟨c, hc1, -, -⟩ := g6 t l v (by rw [h3]; exact hc) (by rw [h4]; exact hlv)
      unfold chartsOn
      rw [hc1]; rfl
    have hnot : ∀ t, ¬ (p.canvas t = true ∧ (p.island t).isSome = true) → chartsOn t p' = 0 := by
      intro t hn
      rw [chartsOn_congr t pk p' (g7 t (by rw [h3, h4]; exact hn))]
      exact h7 t hn
    refine ⟨p', ?_, g2, g3.trans h3, g4.trans h4, g5.trans h5, ?_, hnot, fun _ => hdrawn⟩
    · rw [initChartsTimes, h1]; exact g1
    · intro t
      by_cases hd : p.canvas t = true ∧ (p.island t).isSome = true
      · rw [hdrawn t hd]
      · rw [hnot t hd]; omega

/-- C8: on a freshly loaded page with the chart library present and
well-formed data islands, after any number n >= 1 of `initCharts` runs each
of the four canvases carries exactly one live chart when both the canvas and
its data island exist, and none otherwise.  In every run, whatever the number
of earlier runs, each such canvas ends with one chart that was not live
before the run, built from the island's data, and every chart that was live
on the canvas before the run is gone: `renderChart` destroys the chart on the
canvas and creates a new one, so charts do not accumulate. -/
theorem charts_do_not_accumulate (p : ChartPage) (n : Nat) (hn : 1 ≤ n)
    (hlib : p.chartLibrary = true) (hfresh : p.live = [])
    (hwf : ∀ t, p.island t = none ∨ ∃ l v, p.island t = some (.data l v)) :
    (∃ p', initChartsTimes n p = some p' ∧
      ∀ t, (p'.live.filter (fun c => c.canvas = t)).length
        = if p.canvas t = true ∧ (p.island t).isSome = true then 1 else 0) ∧
    (∀ k, ∃ before after, initChartsTimes k p = some before ∧ initCharts before = some after ∧
      initChartsTimes (k + 1) p = some after ∧
      ∀ t labels values, p.canvas t = true → p.island t = some (.data labels values) →
        ∃ c, after.live.filter (fun x => x.canvas = t) = [c] ∧ c ∉ before.live ∧
          c.config = { type := chartType t, labels := labels, values := values } ∧
          ∀ old ∈ before.live, old.canvas = t → old ∉ after.live) := by
  constructor
  · obtain ⟨p', h1, -, -, -, -, -, h7, h8⟩ := initChartsTimes_reach p hlib hfresh hwf n
    refine ⟨p', h1, ?_⟩
    intro t
    by_cases hd : p.canvas t = true ∧ (p.island t).isSome = true
    · rw [if_pos hd]; exact h8 hn t hd
    · rw [if_neg hd]; exact h7 t hd
  · intro k
    obtain ⟨pk, h1, h2, h3, h4, h5, h6, -, -⟩ := initChartsTimes_reach p hlib hfresh hwf k
    obtain ⟨p', g1, -, -, -, -, g6, -⟩ := initCharts_spec pk (by rw [h5]; exact hlib)
      (by rw [h4]; exact hwf) h2 h6
    refine ⟨pk, p', h1, g1, by rw [initChartsTimes, h1]; exact g1, ?_⟩
    intro t labels values hc hi
    obtain ⟨c, hc1, hc2, hc3⟩ := g6 t labels values (by rw [h3]; exact hc) (by rw [h4]; exact hi)
    refine ⟨c, hc1, ?_, hc3, ?_⟩
    · intro hmem
      have := h2.2 c hmem
      omega
    · intro old hold hcan hafter
      have hin : old ∈ p'.live.filter (fun x => x.canvas = t) := by
        exact List.mem_filter.mpr ⟨hafter, by simpa using hcan⟩
      rw [hc1, List.mem_singleton] at hin
      have := h2.2 old hold
      rw [hin] at this
      omega

/-- Witness for C8: a page load followed by two theme changes. -/
theorem charts_do_not_accumulate_witness :
    (∃ p', initChartsTimes 3 samplePage = some p' ∧
      ∀ t, (p'.live.filter (fun c => c.canvas = t)).length
        = if samplePage.canvas t = true ∧ (samplePage.island t).isSome = true then 1 else 0) ∧
    (∀ k, ∃ before after, initChartsTimes k samplePage = some before ∧
      initCharts before = some after ∧ initChartsTimes (k + 1) samplePage = some after ∧
      ∀ t labels values, samplePage.canvas t = true →
        samplePage.island t = some (.data labels values) →
        ∃ c, after.live.filter (fun x => x.canvas = t) = [c] ∧ c ∉ before.live ∧
          c.config = { type := chartType t, labels := labels, values := values } ∧
          ∀ old ∈ before.live, old.canvas = t → old ∉ after.live) :=
  charts_do_not_accumulate samplePage 3 (by decide) rfl rfl
    (by intro t; cases t <;> simp [samplePage])

end Erms
